import Mathlib

/-!
# YnnkWhisperRecognizer: the recognition queue and the word normalizer

A shallow embedding of `UWhisperSubsystem` (`Private/WhisperSubsystem.cpp`,
`Public/WhisperSubsystem.h`): the `FString` operations the word normalizer
calls, `AddRecognizedWord`, the request queue with its dispatcher
(`ResampleTempBuffer`, `RecognizeFromQueue`, `StopRecognition`), the engine
callbacks, the 16-bit input conversion and the time-mark conversion, followed
by theorems about them.

Conventions of the embedding.
* An `FString` is the list of its characters.
* A `float` is the rational number it denotes; an operation on floats (a cast, a
  difference, a sum, a product) gives its exact result rounded to the nearest binary32
  value, ties to even. Infinities and NaN are not modelled.
* A task handed to `AsyncTask` is a pending task of the state; it runs when the
  matching event of the step function fires.
-/

namespace Whisper

/-! ## FString operations -/

/-- An Unreal `FString`, as the list of its characters. -/
abbrev FString := List Char

/-- Lower-casing of one character, `TChar::ToLower` of the engine
(`Char + ((uint32(Char) - 'A' < 26u) << 5)`, documented there as converting ASCII
characters only): only the letters `A`..`Z` change, each by adding 32 to its code; a
capital letter outside ASCII is left as it is. -/
def ToLower (c : Char) : Char :=
  if 65 ≤ c.toNat ∧ c.toNat ≤ 90 then Char.ofNat (c.toNat + 32) else c

/-- Whitespace test of `TChar::IsWhitespace` (the C `iswspace`): space, tab, line feed,
vertical tab, form feed, carriage return. -/
def IsWhitespace (c : Char) : Bool :=
  c = ' ' || (9 ≤ c.toNat && c.toNat ≤ 13)

/-- Lower-casing of a string in place, `FString::ToLowerInline`. -/
def ToLowerInline (s : FString) : FString := s.map ToLower

/-- Equality of two strings as `FString::operator==` decides it: the comparison ignores
the case of the letters `A`..`Z`. -/
def eqIgnoreCase (a b : FString) : Bool := a.map ToLower == b.map ToLower

/-- The first `n` characters, `FString::Left`. -/
def Left (s : FString) (n : Nat) : FString := s.take n

/-- Whether `search` occurs at the very start of `s`, ignoring case, as the scan of
`FCString::Stristr` tests it at one position. -/
def matchesAt (search s : FString) : Bool :=
  search.length ≤ s.length && eqIgnoreCase (s.take search.length) search

/-- The scan of `FString::ReplaceInline` (default `ESearchCase::IgnoreCase`): left to
right, each occurrence of `search` found in the original text is replaced by `repl` and
the scan resumes after the occurrence. `skip` counts the characters of the current
occurrence that are still to be passed over. -/
def replaceScan (search repl : FString) : Nat → FString → FString
  | _, [] => []
  | skip + 1, _ :: cs => replaceScan search repl skip cs
  | 0, c :: cs =>
    if matchesAt search (c :: cs) then repl ++ replaceScan search repl (search.length - 1) cs
    else c :: replaceScan search repl 0 cs

/-- The call `S.ReplaceInline(search, repl)`: nothing happens for an empty `search`. -/
def ReplaceInline (s search repl : FString) : FString :=
  if search.isEmpty then s else replaceScan search repl 0 s

/-- Removal of whitespace at the end, `FString::TrimEndInline`. -/
def TrimEndInline (s : FString) : FString := s.rdropWhile IsWhitespace

/-- Removal of whitespace at the start, `FString::TrimStartInline`. -/
def TrimStartInline (s : FString) : FString := s.dropWhile IsWhitespace

/-- Removal of whitespace at both ends, `FString::TrimStartAndEndInline`: the end first,
then the start. -/
def TrimStartAndEndInline (s : FString) : FString := TrimStartInline (TrimEndInline s)

/-! ## The word normalizer of `AddRecognizedWord` -/

/-- The table `l_non_speech_tokens` of `AddRecognizedWord`, in the order the source lists
it. The source holds it in a `TSet`, which keeps one copy of an entry listed twice
(`[` and `♪`); removing an entry a second time changes nothing. -/
def l_non_speech_tokens : List FString :=
  [ ['\x22'], ['#'], ['('], [')'], ['*'], ['+'], ['/'], [':'], [';'], ['<'], ['='], ['>'], ['@'],
    ['['], ['\x5c'], [']'], ['^'], ['_'], ['\x60'], ['\x7b'], ['|'], ['\x7d'], ['~'], ['「'], ['」'], ['『'],
    ['』'], ['-'], ['['], ['(', '\x22'], ['♪'], ['♩'], ['♪'], ['♫'],
    ['♬'], ['♭'], ['♮'], ['♯'], ['.'], [','], ['!'], ['?'] ]

/-- The table `l_service_tokens` of `AddRecognizedWord`. -/
def l_service_tokens : List FString :=
  [ "[_TT_".toList, "[_EOT_]".toList, "[_SOT_]".toList, "[_TRANSLATE_]".toList,
    "[_TRANSCRIBE_]".toList, "[_SOLM_]".toList, "[_PREV_]".toList, "[_NOSP_]".toList,
    "[_NOT_]".toList, "[_BEG_]".toList, "[_LANG_".toList, "[_extra_token_".toList ]

/-- The test of the first loop of `AddRecognizedWord`: some service token `token` has
`Word.Len() >= token.Len() && Word.Left(token.Len()) == token`. -/
def isServiceToken (Word : FString) : Bool :=
  l_service_tokens.any fun token =>
    decide (token.length ≤ Word.length) && eqIgnoreCase (Left Word token.length) token

/-- The second loop of `AddRecognizedWord`: every non-speech token is removed in turn. -/
def removeNonSpeech (Word : FString) : FString :=
  l_non_speech_tokens.foldl (fun w token => ReplaceInline w token []) Word

/-- The text part of `AddRecognizedWord` (the lines before the time comparison): `none`
where the function returns early, otherwise the word that is stored. -/
def normalizeWord (Word : FString) : Option FString :=
  if isServiceToken Word then none
  else
    let w1 := ReplaceInline Word ['\t'] [' ']
    let w2 := removeNonSpeech w1
    let w3 := ToLowerInline w2
    let w4 := TrimStartAndEndInline w3
    if w4.isEmpty then none else some w4

/-! ## Float arithmetic -/

/-- The number of halvings that bring `n` down to 1, at most `fuel` of them. -/
def log2Fuel : Nat → Nat → Nat
  | 0, _ => 0
  | fuel + 1, n => if 2 ≤ n then log2Fuel fuel (n / 2) + 1 else 0

/-- The integer part of the binary logarithm of `n ≥ 1`. -/
def log2Nat (n : Nat) : Nat := log2Fuel n n

/-- The binary exponent of a positive rational `a`: the `e` with `2 ^ e ≤ a < 2 ^ (e + 1)`. -/
def binaryExponent (a : ℚ) : Int :=
  let e0 : Int := (log2Nat a.num.natAbs : Int) - (log2Nat a.den : Int)
  if (2 : ℚ) ^ e0 ≤ a then e0 else e0 - 1

/-- The integer nearest to `a`; of two equally near integers the even one. -/
def roundHalfEven (a : ℚ) : Int :=
  let f := ⌊a⌋
  let r := a - f
  if r < 1 / 2 then f else if 1 / 2 < r then f + 1 else if f % 2 = 0 then f else f + 1

/-- Rounding of an exact result to `float` (IEEE 754 binary32, round to nearest, ties to
even): a significand of 24 bits, the smallest exponent -126 (below it the spacing stays
`2 ^ -149`). Results beyond the largest float are not turned into infinities. -/
def roundFloat (x : ℚ) : ℚ :=
  if x = 0 then 0
  else
    let k : Int := max (binaryExponent (if x < 0 then -x else x)) (-126) - 23
    (roundHalfEven (x / 2 ^ k) : ℚ) * 2 ^ k

/-- The cast `(float)n` of an integer. -/
def castFloat (n : Int) : ℚ := roundFloat n

/-- The sum `A + B` of two floats. -/
def floatAdd (A B : ℚ) : ℚ := roundFloat (A + B)

/-- The difference `A - B` of two floats. -/
def floatSub (A B : ℚ) : ℚ := roundFloat (A - B)

/-- The product `A * B` of two floats. -/
def floatMul (A B : ℚ) : ℚ := roundFloat (A * B)

/-! ## Recognized words and the merge rule -/

/-- One recognized word with its time marks: `FSingeWordData(Word, TimeStart, TimeEnd)`. -/
structure FSingeWordData where
  Word : FString
  TimeStart : ℚ
  TimeEnd : ℚ

/-- Absolute value as `FMath::Abs` computes it. -/
def Abs (A : ℚ) : ℚ := if A < 0 then -A else A

/-- The test `FMath::IsNearlyEqual(A, B, ErrorTolerance)` on floats:
`Abs(A - B) <= ErrorTolerance`, the difference being a float. -/
def IsNearlyEqual (A B ErrorTolerance : ℚ) : Bool :=
  decide (Abs (floatSub A B) ≤ ErrorTolerance)

/-- The tolerance `0.05f` that `AddRecognizedWord` passes to `IsNearlyEqual`: the float
nearest to 0.05, which is `13421773 / 2 ^ 28`, a little more than 1/20. -/
def mergeTolerance : ℚ := 13421773 / 268435456

/-- `UWhisperSubsystem::AddRecognizedWord`, as a function of the array `RecognizedData`:
a rejected token leaves the array as it is; an accepted word replaces the last entry when
both of its time marks are nearly equal to those of the last entry, and is added at the end
otherwise. -/
def AddRecognizedWord (RecognizedData : List FSingeWordData) (Word : FString)
    (Time1 Time2 : ℚ) : List FSingeWordData :=
  match normalizeWord Word with
  | none => RecognizedData
  | some w =>
    match RecognizedData.getLast? with
    | some Last =>
      if IsNearlyEqual Last.TimeStart Time1 mergeTolerance
          && IsNearlyEqual Last.TimeEnd Time2 mergeTolerance then
        RecognizedData.dropLast ++ [⟨w, Time1, Time2⟩]
      else RecognizedData ++ [⟨w, Time1, Time2⟩]
    | none => RecognizedData ++ [⟨w, Time1, Time2⟩]

/-- One call of `AddRecognizedWord`: the token text and the two times passed to it. -/
structure WordCall where
  Word : FString
  Time1 : ℚ
  Time2 : ℚ

/-- A sequence of calls of `AddRecognizedWord`, starting from the array `RecognizedData`. -/
def addWordsFrom (RecognizedData : List FSingeWordData) (calls : List WordCall) :
    List FSingeWordData :=
  calls.foldl (fun d c => AddRecognizedWord d c.Word c.Time1 c.Time2) RecognizedData

/-- A sequence of calls of `AddRecognizedWord`, starting from an empty `RecognizedData`. -/
def addWords (calls : List WordCall) : List FSingeWordData := addWordsFrom [] calls

/-- Two entries have nearly identical time ranges: their start times are within 0.05 s of
each other and so are their end times. -/
def NearlyIdentical (a b : FSingeWordData) : Prop :=
  |a.TimeStart - b.TimeStart| ≤ 1 / 20 ∧ |a.TimeEnd - b.TimeEnd| ≤ 1 / 20

/-- No two adjacent entries of the list have nearly identical time ranges. -/
def NoNearAdjacent (RecognizedData : List FSingeWordData) : Prop :=
  List.Chain' (fun a b => ¬ NearlyIdentical a b) RecognizedData

/-- The times of call `b` are not before those of the earlier call `a`. -/
def TimesNotBefore (a b : WordCall) : Prop := a.Time1 ≤ b.Time1 ∧ a.Time2 ≤ b.Time2

/-! ## Time marks -/

/-- A value stored in an `int64_t`: two's complement wrap-around. -/
def wrapInt64 (x : Int) : Int := (x + 2 ^ 63) % 2 ^ 64 - 2 ^ 63

/-- The constant `0.001f`: the float nearest to 0.001, which is `8589935 / 2 ^ 33`. -/
def floatThousandth : ℚ := 8589935 / 8589934592

/-- `UWhisperSubsystem::AsSeconds`: a time mark in units of 10 ms, split into hours,
minutes, seconds and milliseconds by truncating division, then summed as seconds in float
arithmetic: `(float)sec + (float)(min * 60) + (float)(hr * 60 * 60) + (float)msec * 0.001f`. -/
def AsSeconds (t : Int) : ℚ :=
  let msec0 := wrapInt64 (t * 10)
  let hr := Int.tdiv msec0 (1000 * 60 * 60)
  let msec1 := msec0 - hr * (1000 * 60 * 60)
  let mins := Int.tdiv msec1 (1000 * 60)
  let msec2 := msec1 - mins * (1000 * 60)
  let sec := Int.tdiv msec2 1000
  let msec3 := msec2 - sec * 1000
  floatAdd (floatAdd (floatAdd (castFloat sec) (castFloat (mins * 60))) (castFloat (hr * 60 * 60)))
    (floatMul (castFloat msec3) floatThousandth)

/-! ## Requests, the subsystem state and its operations -/

/-- A `UAsyncRecognizer*`: `none` is the null pointer, `some h` the object with handle `h`. -/
abbrev SenderPtr := Option Nat

/-- The test `IsValid(Sender)`: the pointer is not null. The destruction of a sender object
while its request waits or runs is not modelled. -/
def IsValid (Sender : SenderPtr) : Bool := Sender.isSome

/-- A recognition request, `FWhisperRequest`. -/
structure FWhisperRequest where
  Sender : SenderPtr
  Id : Int
  Flag : Nat
  AudioBuffer : List ℚ

/-- The default-constructed request: null sender, `INDEX_NONE`, flag 0, no audio. -/
def FWhisperRequest.default : FWhisperRequest := ⟨none, -1, 0, []⟩

/-- One call `Sender->OnExternalRecognizeResult(Id, Flag, RecognizedString, RecognizedData)`. -/
structure ResultCall where
  Sender : SenderPtr
  Id : Int
  Flag : Nat
  Text : FString
  Words : List FSingeWordData

/-- The fields of `UWhisperSubsystem` that the recognition queue reads and writes, and
three records of its surroundings: `pendingTasks` counts the worker tasks that
`RecognizeFromQueue` has handed to `AsyncTask` and that have not started,
`running` counts the calls of `whisper_full_parallel` in progress on `WhisperContext`,
`resampleTasks` lists the source rates of the resampling tasks handed to `AsyncTask`,
and `delivered` lists the calls of `OnExternalRecognizeResult` made so far.
`WhisperContext` and `WhisperParameters` say whether the pointer is non-null. -/
structure WhisperState where
  WhisperContext : Bool
  WhisperParameters : Bool
  RecognizedString : FString
  RecognizedData : List FSingeWordData
  RequestsQueue : List FWhisperRequest
  ActiveRequest : FWhisperRequest
  TempRequest : FWhisperRequest
  bBreakWork : Bool
  pendingTasks : Nat
  running : Nat
  resampleTasks : List Int
  delivered : List ResultCall

/-- Modelled from the spec: the macro `WHISPER_SAMPLE_RATE` of `whisper.h`, the engine's
fixed target rate of 16000 Hz. -/
def WHISPER_SAMPLE_RATE : Int := 16000

/-- `UWhisperSubsystem::RecognizeFromQueue`: with a non-empty queue the transcript is
reset, the stop flag is cleared and one worker task is handed to `AsyncTask`. -/
def RecognizeFromQueue (s : WhisperState) : WhisperState :=
  if !s.RequestsQueue.isEmpty then
    { s with RecognizedString := [], RecognizedData := [], bBreakWork := false,
             pendingTasks := s.pendingTasks + 1 }
  else s

/-- `UWhisperSubsystem::ResampleTempBuffer`: at another rate a resampling task is handed
to `AsyncTask`; at the target rate `TempRequest` is put at the end of the queue and
recognition is started when the queue was empty before. -/
def ResampleTempBuffer (s : WhisperState) (DataSampleRate : Int) : WhisperState :=
  if DataSampleRate ≠ WHISPER_SAMPLE_RATE then
    { s with resampleTasks := s.resampleTasks ++ [DataSampleRate] }
  else
    let bStartRecognition := s.RequestsQueue.isEmpty
    let s1 := { s with RequestsQueue := s.RequestsQueue ++ [s.TempRequest] }
    if bStartRecognition then RecognizeFromQueue s1 else s1

/-- `UWhisperSubsystem::Recognize_32_Implementation`. -/
def Recognize_32_Implementation (s : WhisperState) (Sender : SenderPtr) (PCMData : List ℚ)
    (SampleRate : Int) (Id : Int) (Flag : Nat) : WhisperState :=
  ResampleTempBuffer { s with TempRequest := ⟨Sender, Id, Flag, PCMData⟩ } SampleRate

/-- `UWhisperSubsystem::StopRecognition_Implementation`; the sender is not used. -/
def StopRecognition_Implementation (s : WhisperState) (_Sender : SenderPtr) : WhisperState :=
  { s with RequestsQueue := [], bBreakWork := true }

/-- `UWhisperSubsystem::ShouldBreak`. -/
def ShouldBreak (s : WhisperState) : Bool := s.bBreakWork

/-- The worker task of `RecognizeFromQueue` up to its call of `whisper_full_parallel`:
`RequestsQueue.Dequeue(ActiveRequest)` moves the head of the queue into `ActiveRequest`
(an empty queue leaves `ActiveRequest` as it is), then the engine call begins. -/
def workerTask (s : WhisperState) : WhisperState :=
  let s1 : WhisperState :=
    match s.RequestsQueue with
    | [] => s
    | r :: q => { s with RequestsQueue := q, ActiveRequest := r }
  { s1 with pendingTasks := s.pendingTasks - 1, running := s.running + 1 }

/-! ## Engine callbacks -/

/-- What the engine reports for one token: its text and its two time marks. -/
structure TokenData where
  Text : FString
  t0 : Int
  t1 : Int

/-- What the engine reports for one segment: its text and its tokens. -/
structure SegmentData where
  Text : FString
  Tokens : List TokenData

/-- The token loop of `NewTextSegmentCallback` for one segment: each token text is trimmed
and passed to `AddRecognizedWord` with its time marks converted by `AsSeconds`. -/
def addSegmentTokens (RecognizedData : List FSingeWordData) (Tokens : List TokenData) :
    List FSingeWordData :=
  Tokens.foldl
    (fun d tok => AddRecognizedWord d (TrimStartAndEndInline tok.Text) (AsSeconds tok.t0) (AsSeconds tok.t1))
    RecognizedData

/-- `WhisperCallback::NewTextSegmentCallback` on the newly finished segments `Segments`
(those with index `TotalSegmentCount - NewSegmentCount` and above), together with its
game-thread task that appends the collected text to `RecognizedString`. The user data is
the subsystem `s` itself, as `InitializeParameters` registers it. -/
def NewTextSegmentCallback (s : WhisperState) (Segments : List SegmentData) : WhisperState :=
  if !s.WhisperContext || !s.WhisperParameters then s
  else
    let NewData : FString := Segments.foldl (fun acc seg => acc ++ seg.Text) []
    let Data := Segments.foldl (fun d seg => addSegmentTokens d seg.Tokens) s.RecognizedData
    { s with RecognizedData := Data, RecognizedString := s.RecognizedString ++ NewData }

/-- `WhisperCallback::EncoderBeginCallback`; `UserData` is `none` for a null pointer and
the subsystem otherwise. -/
def EncoderBeginCallback (UserData : Option WhisperState) : Bool :=
  match UserData with
  | none => false
  | some s => if !s.WhisperContext || !s.WhisperParameters then false else true

/-- `WhisperCallback::EncoderAbortCallback`; `UserData` is `none` for a null pointer and
the subsystem otherwise. -/
def EncoderAbortCallback (UserData : Option WhisperState) : Bool :=
  match UserData with
  | none => true
  | some s => if !s.WhisperContext || !s.WhisperParameters then true else ShouldBreak s

/-- The clamp `FMath::Clamp(X, Min, Max)`. -/
def Clamp (X Min Max : Int) : Int := if X < Min then Min else if X < Max then X else Max

/-- The game-thread task of `ProgressCallback`: with a valid sender of `ActiveRequest` the
transcript is cleaned and handed to the sender; in either case `RecognizeFromQueue` runs. -/
def progressTask (s : WhisperState) : WhisperState :=
  let s1 : WhisperState :=
    if IsValid s.ActiveRequest.Sender then
      let str := TrimStartAndEndInline (ReplaceInline s.RecognizedString [' ', ' '] [' '])
      { s with RecognizedString := str,
               delivered := s.delivered ++
                 [⟨s.ActiveRequest.Sender, s.ActiveRequest.Id, s.ActiveRequest.Flag, str,
                   s.RecognizedData⟩] }
    else s
  RecognizeFromQueue s1

/-- `WhisperCallback::ProgressCallback` together with its game-thread task. The user data
is the subsystem `s` itself, as `InitializeParameters` registers it. -/
def ProgressCallback (s : WhisperState) (Progress : Int) : WhisperState :=
  if !s.WhisperContext || !s.WhisperParameters then s
  else if Clamp Progress 0 100 = 100 then progressTask s
  else s

/-! ## The step model -/

/-- The events of the recognition queue.
* `submit`: a call of `Recognize_32_Implementation`.
* `workerDequeue`: a worker task handed out by `RecognizeFromQueue` starts.
* `newSegment`: the running engine call reports new segments.
* `progress`: the running engine call reports progress; at 100 (after clamping) this is
  the last event of the engine call, which is then no longer in progress.
* `engineFailure`: the running engine call returns a non-zero status without having
  reported progress 100; the worker task logs the failure and ends.
* `stop`: a call of `StopRecognition_Implementation`. -/
inductive Event where
  | submit (Sender : SenderPtr) (PCMData : List ℚ) (SampleRate : Int) (Id : Int) (Flag : Nat)
  | workerDequeue
  | newSegment (Segments : List SegmentData)
  | progress (Progress : Int)
  | engineFailure
  | stop (Sender : SenderPtr)

/-- One step: `none` when the event cannot occur in the state (no worker task is pending,
or no engine call is in progress). -/
def step (s : WhisperState) : Event → Option WhisperState
  | .submit Sender PCMData SampleRate Id Flag =>
    some (Recognize_32_Implementation s Sender PCMData SampleRate Id Flag)
  | .workerDequeue => if 0 < s.pendingTasks then some (workerTask s) else none
  | .newSegment Segments => if 0 < s.running then some (NewTextSegmentCallback s Segments) else none
  | .progress Progress =>
    if 0 < s.running then
      let s1 := ProgressCallback s Progress
      some (if Clamp Progress 0 100 = 100 then { s1 with running := s1.running - 1 } else s1)
    else none
  | .engineFailure => if 0 < s.running then some { s with running := s.running - 1 } else none
  | .stop Sender => some (StopRecognition_Implementation s Sender)

/-- A run: the events are applied in order; `none` as soon as one cannot occur. -/
def run (s : WhisperState) : List Event → Option WhisperState
  | [] => some s
  | e :: es => (step s e).bind fun s1 => run s1 es

/-- The subsystem after `Initialize` and a successful model load: the engine context and
the parameters exist, nothing is queued, pending or running. -/
def initialState : WhisperState :=
  { WhisperContext := true, WhisperParameters := true, RecognizedString := [],
    RecognizedData := [], RequestsQueue := [], ActiveRequest := FWhisperRequest.default,
    TempRequest := FWhisperRequest.default, bBreakWork := false, pendingTasks := 0,
    running := 0, resampleTasks := [], delivered := [] }

/-- The states a run from `initialState` can end in. -/
def Reachable (s : WhisperState) : Prop := ∃ es, run initialState es = some s

/-- No request is queued, no worker task is pending and no engine call is in progress. -/
def Idle (s : WhisperState) : Prop :=
  s.RequestsQueue = [] ∧ s.pendingTasks = 0 ∧ s.running = 0

/-! ## Time stamps, 16-bit input and resampling -/

/-- The value `pcm16[i]` of `Recognize_16_Implementation`: bytes `2 * i` and `2 * i + 1` of
the array read as one signed 16-bit number, low byte first (the platforms of the plugin are
little-endian). A byte is a number taken modulo 256. -/
def pcm16 (PCMData : List Nat) (i : Nat) : Int :=
  let u : Int := ((PCMData.getD (2 * i) 0 % 256 + 256 * (PCMData.getD (2 * i + 1) 0 % 256) : Nat) : Int)
  if u < 32768 then u else u - 65536

/-- The conversion loop of `Recognize_16_Implementation`: `PCMData.Num() / 2` samples, sample
`i` being `float(pcm16[i]) / 32768.0f`. -/
def convertPcm16 (PCMData : List Nat) : List ℚ :=
  (List.range (PCMData.length / 2)).map fun i => (pcm16 PCMData i : ℚ) / 32768

/-- `UWhisperSubsystem::Recognize_16_Implementation` with its two tasks run at once: the
request fields are stored in `TempRequest`, the samples are converted, and
`ResampleTempBuffer` is called. The source takes the address of `PCMData[0]`, which an
empty array does not have; the model converts an empty array to an empty buffer. -/
def Recognize_16_Implementation (s : WhisperState) (Sender : SenderPtr) (PCMData : List Nat)
    (SampleRate : Int) (Id : Int) (Flag : Nat) : WhisperState :=
  ResampleTempBuffer { s with TempRequest := ⟨Sender, Id, Flag, convertPcm16 PCMData⟩ } SampleRate

/-- The resampling task that `ResampleTempBuffer` hands to `AsyncTask` at a rate other than
the target rate. `Resample` stands for `Audio::Resample` of the engine library, which is not
part of the plugin: from the source rate, the target rate and the buffer it gives the
resampled buffer, or `none` when it fails. On success the buffer of `TempRequest` is
replaced and `ResampleTempBuffer` is called at the target rate; on failure only a message
is logged. -/
def resampleTask (Resample : Int → Int → List ℚ → Option (List ℚ)) (s : WhisperState)
    (OriginalSampleRate : Int) : WhisperState :=
  match Resample OriginalSampleRate WHISPER_SAMPLE_RATE s.TempRequest.AudioBuffer with
  | some ResampledPCMData =>
    ResampleTempBuffer
      { s with TempRequest := { s.TempRequest with AudioBuffer := ResampledPCMData } }
      WHISPER_SAMPLE_RATE
  | none => s

/-! ## Facts about float rounding -/

theorem log2Fuel_spec (fuel : Nat) :
    ∀ n : Nat, 1 ≤ n → n ≤ fuel →
      2 ^ log2Fuel fuel n ≤ n ∧ n < 2 ^ (log2Fuel fuel n + 1) := by
  induction fuel with
  | zero => intro n h1 h2; omega
  | succ f ih =>
    intro n h1 h2
    unfold log2Fuel
    split
    · rename_i h
      obtain ⟨ih1, ih2⟩ := ih (n / 2) (by omega) (by omega)
      have e1 : 2 ^ (log2Fuel f (n / 2) + 1) = 2 ^ log2Fuel f (n / 2) * 2 := pow_succ _ _
      have e2 : 2 ^ (log2Fuel f (n / 2) + 1 + 1) = 2 ^ log2Fuel f (n / 2) * 2 * 2 := by
        rw [pow_succ, pow_succ]
      rw [e1] at ih2
      rw [e1, e2]
      generalize 2 ^ log2Fuel f (n / 2) = P at ih1 ih2 ⊢
      constructor <;> omega
    · rename_i h
      simp
      omega

theorem log2Nat_spec {n : Nat} (h : 1 ≤ n) :
    2 ^ log2Nat n ≤ n ∧ n < 2 ^ (log2Nat n + 1) :=
  log2Fuel_spec n n h (Nat.le_refl n)

theorem binaryExponent_le {a : ℚ} (ha : 0 < a) : (2 : ℚ) ^ binaryExponent a ≤ a := by
  unfold binaryExponent
  simp only
  split
  · assumption
  · have hnum : 0 < a.num := Rat.num_pos.mpr ha
    have hp : 1 ≤ a.num.natAbs := by omega
    have hd : 1 ≤ a.den := a.den_pos
    obtain ⟨hp1, _⟩ := log2Nat_spec hp
    obtain ⟨_, hd2⟩ := log2Nat_spec hd
    have hpq : ((2 : ℚ) ^ log2Nat a.num.natAbs) ≤ (a.num.natAbs : ℚ) := by exact_mod_cast hp1
    have hdq : (a.den : ℚ) ≤ (2 : ℚ) ^ (log2Nat a.den + 1) := by exact_mod_cast hd2.le
    have hden : (0 : ℚ) < a.den := by exact_mod_cast hd
    have ha_eq : a = (a.num.natAbs : ℚ) / (a.den : ℚ) := by
      have h2 : (a.num.natAbs : ℚ) = (a.num : ℚ) := by
        rw [Nat.cast_natAbs, abs_of_pos hnum]
      rw [h2]
      exact (Rat.num_div_den a).symm
    have hexp : (2 : ℚ) ^ ((log2Nat a.num.natAbs : Int) - (log2Nat a.den : Int) - 1)
        = (2 : ℚ) ^ log2Nat a.num.natAbs / (2 : ℚ) ^ (log2Nat a.den + 1) := by
      rw [show ((log2Nat a.num.natAbs : Int) - (log2Nat a.den : Int) - 1)
        = (log2Nat a.num.natAbs : Int) - ((log2Nat a.den + 1 : Nat) : Int) by push_cast; ring]
      rw [zpow_sub₀ (by norm_num), zpow_natCast, zpow_natCast]
    rw [hexp]
    conv_rhs => rw [ha_eq]
    have hpos2 : (0 : ℚ) < (2 : ℚ) ^ (log2Nat a.den + 1) := by positivity
    rw [div_le_div_iff₀ hpos2 hden]
    have hpn : (0 : ℚ) ≤ (2 : ℚ) ^ log2Nat a.num.natAbs := by positivity
    have hnn : (0 : ℚ) ≤ (a.num.natAbs : ℚ) := by positivity
    calc (2 : ℚ) ^ log2Nat a.num.natAbs * (a.den : ℚ)
        ≤ (a.num.natAbs : ℚ) * (a.den : ℚ) := by
          exact mul_le_mul_of_nonneg_right hpq hden.le
      _ ≤ (a.num.natAbs : ℚ) * (2 : ℚ) ^ (log2Nat a.den + 1) := by
          exact mul_le_mul_of_nonneg_left hdq hnn

theorem roundHalfEven_le {a : ℚ} {T : Int} (h : a ≤ T) : roundHalfEven a ≤ T := by
  have hf : ⌊a⌋ ≤ T := Int.floor_le_iff.mpr (by linarith)
  unfold roundHalfEven
  simp only
  by_cases hT : ⌊a⌋ = T
  · have hr : a - (⌊a⌋ : ℚ) < 1 / 2 := by
      rw [hT]
      linarith
    rw [if_pos hr, hT]
  · have : ⌊a⌋ + 1 ≤ T := by omega
    split
    · omega
    · split
      · omega
      · split <;> omega

theorem le_roundHalfEven {a : ℚ} {T : Int} (h : (T : ℚ) ≤ a) : T ≤ roundHalfEven a := by
  have hf : T ≤ ⌊a⌋ := Int.le_floor.mpr h
  unfold roundHalfEven
  simp only
  split
  · omega
  · split
    · omega
    · split <;> omega

theorem roundFloat_bounds {d : ℚ} (h : |d| ≤ 1 / 20) :
    -(13421773 / 268435456 : ℚ) ≤ roundFloat d ∧ roundFloat d ≤ 13421773 / 268435456 := by
  unfold roundFloat
  split
  · constructor <;> norm_num
  · rename_i hd0
    simp only
    have habs : (if d < 0 then -d else d) = |d| := by
      split
      · rename_i hneg; exact (abs_of_neg hneg).symm
      · rename_i hneg; exact (abs_of_nonneg (not_lt.mp hneg)).symm
    rw [habs]
    have hpos : 0 < |d| := abs_pos.mpr hd0
    have he : binaryExponent |d| ≤ -5 := by
      have h1 := binaryExponent_le hpos
      have h2 : (2 : ℚ) ^ binaryExponent |d| < (2 : ℚ) ^ (-4 : Int) := by
        refine lt_of_le_of_lt (le_trans h1 h) ?_
        norm_num
      have h3 := (zpow_lt_zpow_iff_right₀ (by norm_num : (1 : ℚ) < 2)).mp h2
      omega
    generalize hk : max (binaryExponent |d|) (-126) - 23 = k
    have hk28 : k ≤ -28 := by
      have : max (binaryExponent |d|) (-126) ≤ -5 := max_le he (by norm_num)
      omega
    obtain ⟨m, hm⟩ : ∃ m : Nat, k = -28 - (m : Int) := ⟨(-28 - k).toNat, by omega⟩
    have h2k : (0 : ℚ) < (2 : ℚ) ^ k := by positivity
    have htol : (13421773 / 268435456 : ℚ) = ((13421773 * 2 ^ m : Int) : ℚ) * (2 : ℚ) ^ k := by
      rw [hm, zpow_sub₀ (by norm_num), zpow_natCast]
      push_cast
      field_simp
      ring
    have hle : |d| / (2 : ℚ) ^ k ≤ ((13421773 * 2 ^ m : Int) : ℚ) := by
      rw [div_le_iff₀ h2k, ← htol]
      refine le_trans h ?_
      norm_num
    have hupper : d / (2 : ℚ) ^ k ≤ ((13421773 * 2 ^ m : Int) : ℚ) := by
      refine le_trans ?_ hle
      exact div_le_div_of_nonneg_right (le_abs_self d) h2k.le
    have hlower : ((-(13421773 * 2 ^ m) : Int) : ℚ) ≤ d / (2 : ℚ) ^ k := by
      have : -(|d| / (2 : ℚ) ^ k) ≤ d / (2 : ℚ) ^ k := by
        rw [← neg_div]
        exact div_le_div_of_nonneg_right (neg_abs_le d) h2k.le
      push_cast
      push_cast at hle
      linarith
    have r1 := roundHalfEven_le hupper
    have r2 := le_roundHalfEven hlower
    have r1q : ((roundHalfEven (d / (2 : ℚ) ^ k) : Int) : ℚ) ≤ ((13421773 * 2 ^ m : Int) : ℚ) := by
      exact_mod_cast r1
    have r2q : ((-(13421773 * 2 ^ m) : Int) : ℚ) ≤ ((roundHalfEven (d / (2 : ℚ) ^ k) : Int) : ℚ) := by
      exact_mod_cast r2
    rw [htol]
    constructor
    · have := mul_le_mul_of_nonneg_right r2q h2k.le
      push_cast at this ⊢
      linarith
    · exact mul_le_mul_of_nonneg_right r1q h2k.le

/-! ## Facts about the string operations -/

theorem ToLower_idem (c : Char) : ToLower (ToLower c) = ToLower c := by
  unfold ToLower
  by_cases h : 65 ≤ c.toNat ∧ c.toNat ≤ 90
  · simp only [h, and_self, if_true]
    have h2 : (Char.ofNat (c.toNat + 32)).toNat = c.toNat + 32 := by
      obtain ⟨h1, h2⟩ := h
      generalize c.toNat = n at *
      interval_cases n <;> decide
    rw [h2]
    have : ¬ (65 ≤ c.toNat + 32 ∧ c.toNat + 32 ≤ 90) := by omega
    rw [if_neg this]
  · simp [h]

theorem matchesAt_head {x c : Char} {xs cs : FString}
    (h : matchesAt (x :: xs) (c :: cs) = true) : ToLower c = ToLower x := by
  simp [matchesAt, eqIgnoreCase] at h
  exact h.2.1

theorem matchesAt_singleton (x c : Char) (cs : FString) :
    matchesAt [x] (c :: cs) = decide (ToLower c = ToLower x) := by
  rw [Bool.eq_iff_iff]
  simp [matchesAt, eqIgnoreCase]

theorem replaceScan_nil_sublist (search : FString) :
    ∀ (s : FString) (skip : Nat), (replaceScan search [] skip s).Sublist s := by
  intro s
  induction s with
  | nil => intro skip; cases skip <;> simp [replaceScan]
  | cons c cs ih =>
    intro skip
    cases skip with
    | zero =>
      simp only [replaceScan]
      split
      · exact (ih _).trans (List.sublist_cons_self c cs)
      · exact (ih 0).cons₂ c
    | succ k =>
      simp only [replaceScan]
      exact (ih k).trans (List.sublist_cons_self c cs)

theorem ReplaceInline_nil_sublist (s search : FString) : (ReplaceInline s search []).Sublist s := by
  unfold ReplaceInline
  split
  · exact List.Sublist.refl s
  · exact replaceScan_nil_sublist search s 0

theorem replaceScan_of_no_head (x : Char) (xs repl : FString) :
    ∀ s : FString, (∀ c ∈ s, ToLower c ≠ ToLower x) → replaceScan (x :: xs) repl 0 s = s := by
  intro s
  induction s with
  | nil => intro _; simp [replaceScan]
  | cons c cs ih =>
    intro h
    have hc : ToLower c ≠ ToLower x := h c (List.mem_cons_self c cs)
    have hm : matchesAt (x :: xs) (c :: cs) = false := by
      cases hm : matchesAt (x :: xs) (c :: cs)
      · rfl
      · exact absurd (matchesAt_head hm) hc
    simp only [replaceScan, hm]
    rw [ih (fun d hd => h d (List.mem_cons_of_mem c hd))]
    simp

theorem ReplaceInline_of_no_head (s search repl : FString)
    (h : ∀ x ∈ search.head?, ∀ c ∈ s, ToLower c ≠ ToLower x) : ReplaceInline s search repl = s := by
  unfold ReplaceInline
  cases search with
  | nil => simp
  | cons x xs => simpa using replaceScan_of_no_head x xs repl s (h x (by simp))

theorem replaceScan_singleton (x : Char) (repl : FString) :
    ∀ s : FString, replaceScan [x] repl 0 s
      = (s.map fun c => if ToLower c = ToLower x then repl else [c]).flatten := by
  intro s
  induction s with
  | nil => simp [replaceScan]
  | cons c cs ih =>
    simp only [replaceScan, matchesAt_singleton, List.length_singleton, Nat.sub_self, ih,
      List.map_cons, List.flatten_cons, decide_eq_true_eq]
    split <;> simp

theorem mem_ReplaceInline_singleton {x d : Char} {repl s : FString}
    (hd : d ∈ ReplaceInline s [x] repl) : d ∈ repl ∨ (d ∈ s ∧ ToLower d ≠ ToLower x) := by
  simp only [ReplaceInline, List.isEmpty_cons, Bool.false_eq_true, if_false,
    replaceScan_singleton, List.mem_flatten, List.mem_map] at hd
  obtain ⟨l, ⟨c, hc, rfl⟩, hdl⟩ := hd
  split at hdl
  · exact Or.inl hdl
  · right
    simp at hdl
    subst hdl
    exact ⟨hc, by assumption⟩

theorem foldl_remove_sublist (toks : List FString) :
    ∀ s : FString, (toks.foldl (fun w token => ReplaceInline w token []) s).Sublist s := by
  induction toks with
  | nil => intro s; exact List.Sublist.refl s
  | cons t ts ih =>
    intro s
    exact (ih _).trans (ReplaceInline_nil_sublist s t)

theorem foldl_remove_no_char (x : Char) (toks : List FString) :
    ∀ s : FString, [x] ∈ toks →
      ∀ c ∈ toks.foldl (fun w token => ReplaceInline w token []) s, ToLower c ≠ ToLower x := by
  induction toks with
  | nil => intro s h; simp at h
  | cons t ts ih =>
    intro s h c hc
    rcases List.mem_cons.mp h with h1 | h1
    · subst h1
      have hc1 : c ∈ ReplaceInline s [x] [] := (foldl_remove_sublist ts _).subset hc
      rcases mem_ReplaceInline_singleton hc1 with h2 | h2
      · simp at h2
      · exact h2.2
    · exact ih _ h1 c hc

theorem foldl_remove_fixed (toks : List FString) (s : FString)
    (h : ∀ t ∈ toks, ∀ x ∈ t.head?, ∀ c ∈ s, ToLower c ≠ ToLower x) :
    toks.foldl (fun w token => ReplaceInline w token []) s = s := by
  induction toks with
  | nil => rfl
  | cons t ts ih =>
    have h1 : ReplaceInline s t [] = s :=
      ReplaceInline_of_no_head s t [] (h t (List.mem_cons_self t ts))
    simp only [List.foldl_cons, h1]
    exact ih (fun t1 ht1 => h t1 (List.mem_cons_of_mem t ht1))

theorem non_speech_heads :
    ∀ t ∈ l_non_speech_tokens, ∀ x ∈ t.head?, [x] ∈ l_non_speech_tokens := by decide

theorem service_heads : ∀ t ∈ l_service_tokens, t.head? = some '[' := by decide

theorem removeNonSpeech_sublist (s : FString) : (removeNonSpeech s).Sublist s :=
  foldl_remove_sublist l_non_speech_tokens s

theorem removeNonSpeech_no_symbol {x : Char} (hx : [x] ∈ l_non_speech_tokens) (s : FString) :
    ∀ c ∈ removeNonSpeech s, ToLower c ≠ ToLower x :=
  foldl_remove_no_char x l_non_speech_tokens s hx

theorem removeNonSpeech_fixed (s : FString)
    (h : ∀ x, [x] ∈ l_non_speech_tokens → ∀ c ∈ s, ToLower c ≠ ToLower x) :
    removeNonSpeech s = s :=
  foldl_remove_fixed l_non_speech_tokens s
    (fun t ht x hx => h x (non_speech_heads t ht x hx))

theorem trim_head_not_ws (u : FString) :
    ∀ c ∈ (TrimStartAndEndInline u).head?, IsWhitespace c = false := by
  intro c hc
  have h := List.head?_dropWhile_not IsWhitespace (TrimEndInline u)
  unfold TrimStartAndEndInline TrimStartInline at hc
  rw [Option.mem_def] at hc
  rw [hc] at h
  exact h

theorem trim_last_not_ws (u : FString) :
    ∀ c ∈ (TrimStartAndEndInline u).getLast?, IsWhitespace c = false := by
  intro c hc
  have hne : TrimStartAndEndInline u ≠ [] := by
    intro h0
    rw [h0] at hc
    simp at hc
  have hsuf : TrimStartAndEndInline u <:+ List.rdropWhile IsWhitespace u :=
    List.dropWhile_suffix IsWhitespace
  have hne2 : List.rdropWhile IsWhitespace u ≠ [] := by
    intro h0
    rw [h0] at hsuf
    exact hne (List.eq_nil_of_suffix_nil hsuf)
  have h1 := List.IsSuffix.getLast hsuf hne
  have h2 := List.rdropWhile_last_not IsWhitespace u hne2
  rw [List.getLast?_eq_getLast _ hne, Option.mem_def, Option.some.injEq] at hc
  rw [← hc, h1]
  simpa using h2

theorem trim_idem (u : FString) :
    TrimStartAndEndInline (TrimStartAndEndInline u) = TrimStartAndEndInline u := by
  have h1 : TrimEndInline (TrimStartAndEndInline u) = TrimStartAndEndInline u := by
    unfold TrimEndInline
    rw [List.rdropWhile_eq_self_iff]
    intro hl
    have := trim_last_not_ws u _ (List.getLast_mem_getLast? hl)
    simp [this]
  show TrimStartInline (TrimEndInline (TrimStartAndEndInline u)) = _
  rw [h1]
  exact List.dropWhile_idempotent IsWhitespace _

theorem trim_sublist (u : FString) : (TrimStartAndEndInline u).Sublist u :=
  (List.dropWhile_sublist IsWhitespace).trans (List.rdropWhile_prefix IsWhitespace u).sublist

/-- The facts about a word that `normalizeWord` returns. -/
theorem normalizeWord_some_props {Word w : FString} (h : normalizeWord Word = some w) :
    w ≠ [] ∧ (∀ c ∈ w, ToLower c = c) ∧ TrimStartAndEndInline w = w ∧
    (∀ x, [x] ∈ l_non_speech_tokens → ∀ c ∈ w, ToLower c ≠ ToLower x) ∧
    (∀ c ∈ w, ToLower c ≠ ToLower '\t') := by
  unfold normalizeWord at h
  split at h
  · exact absurd h (by simp)
  · simp only at h
    split at h
    · exact absurd h (by simp)
    · rename_i hne
      simp only [Option.some.injEq] at h
      have hsub := trim_sublist (ToLowerInline (removeNonSpeech (ReplaceInline Word ['\t'] [' '])))
      rw [h] at hsub
      have hmem : ∀ c ∈ w, ∃ c0 ∈ removeNonSpeech (ReplaceInline Word ['\t'] [' ']),
          ToLower c0 = c := by
        intro c hc
        have := hsub.subset hc
        simpa [ToLowerInline] using this
      refine ⟨?_, ?_, ?_, ?_, ?_⟩
      · intro h0
        rw [h0] at h
        rw [h] at hne
        simp at hne
      · intro c hc
        obtain ⟨c0, _, rfl⟩ := hmem c hc
        exact ToLower_idem c0
      · rw [← h]
        exact trim_idem _
      · intro x hx c hc
        obtain ⟨c0, hc0, rfl⟩ := hmem c hc
        rw [ToLower_idem]
        exact removeNonSpeech_no_symbol hx _ c0 hc0
      · intro c hc
        obtain ⟨c0, hc0, rfl⟩ := hmem c hc
        rw [ToLower_idem]
        have hc1 := (removeNonSpeech_sublist _).subset hc0
        rcases mem_ReplaceInline_singleton hc1 with h2 | h2
        · simp only [List.mem_singleton] at h2
          subst h2
          decide
        · exact h2.2

theorem eqIgnoreCase_self (a : FString) : eqIgnoreCase a a = true := by simp [eqIgnoreCase]

theorem isServiceToken_of_prefix {token : FString} (ht : token ∈ l_service_tokens)
    (rest : FString) : isServiceToken (token ++ rest) = true := by
  unfold isServiceToken
  rw [List.any_eq_true]
  exact ⟨token, ht, by simp [Left, eqIgnoreCase_self]⟩

theorem isServiceToken_normalized {w : FString}
    (h : ∀ c ∈ w, ToLower c ≠ ToLower '[') : isServiceToken w = false := by
  cases hs : isServiceToken w
  · rfl
  · exfalso
    unfold isServiceToken at hs
    rw [List.any_eq_true] at hs
    obtain ⟨t, ht, hcond⟩ := hs
    have hh := service_heads t ht
    obtain ⟨tl, rfl⟩ := List.head?_eq_some_iff.mp hh
    cases w with
    | nil => simp at hcond
    | cons c cs =>
      simp only [Left, eqIgnoreCase, List.length_cons, List.take_succ_cons, List.map_cons,
        Bool.and_eq_true, decide_eq_true_eq, beq_iff_eq, List.cons.injEq] at hcond
      exact h c (List.mem_cons_self c cs) hcond.2.1

theorem normalizeWord_of_props {w : FString} (h1 : w ≠ []) (h2 : ∀ c ∈ w, ToLower c = c)
    (h3 : TrimStartAndEndInline w = w)
    (h4 : ∀ x, [x] ∈ l_non_speech_tokens → ∀ c ∈ w, ToLower c ≠ ToLower x)
    (h5 : ∀ c ∈ w, ToLower c ≠ ToLower '\t') : normalizeWord w = some w := by
  have hs : isServiceToken w = false := isServiceToken_normalized (h4 '[' (by decide))
  have ht : ReplaceInline w ['\t'] [' '] = w :=
    ReplaceInline_of_no_head w ['\t'] [' '] (by simpa using h5)
  have hr : removeNonSpeech w = w := removeNonSpeech_fixed w h4
  have hl : ToLowerInline w = w := by
    unfold ToLowerInline
    conv_rhs => rw [← List.map_id w]
    exact List.map_congr_left h2
  unfold normalizeWord
  simp only [hs, Bool.false_eq_true, if_false, ht, hr, hl, h3]
  cases w with
  | nil => exact absurd rfl h1
  | cons c cs => simp

theorem Abs_eq_abs (A : ℚ) : Abs A = |A| := by
  unfold Abs
  split
  · rename_i h; exact (abs_of_neg h).symm
  · rename_i h; exact (abs_of_nonneg (not_lt.mp h)).symm

theorem IsNearlyEqual_iff (A B tol : ℚ) :
    IsNearlyEqual A B tol = true ↔ |roundFloat (A - B)| ≤ tol := by
  simp [IsNearlyEqual, floatSub, Abs_eq_abs]

theorem IsNearlyEqual_of_near {A B : ℚ} (h : |A - B| ≤ 1 / 20) :
    IsNearlyEqual A B mergeTolerance = true := by
  rw [IsNearlyEqual_iff, abs_le]
  exact roundFloat_bounds h

theorem AddRecognizedWord_none {Word : FString} (h : normalizeWord Word = none)
    (data : List FSingeWordData) (t1 t2 : ℚ) : AddRecognizedWord data Word t1 t2 = data := by
  simp [AddRecognizedWord, h]

theorem AddRecognizedWord_nil {Word w : FString} (h : normalizeWord Word = some w)
    (t1 t2 : ℚ) : AddRecognizedWord [] Word t1 t2 = [⟨w, t1, t2⟩] := by
  simp [AddRecognizedWord, h]

theorem AddRecognizedWord_concat {Word w : FString} (h : normalizeWord Word = some w)
    (L : List FSingeWordData) (b : FSingeWordData) (t1 t2 : ℚ) :
    AddRecognizedWord (L ++ [b]) Word t1 t2 =
      if IsNearlyEqual b.TimeStart t1 mergeTolerance = true
          ∧ IsNearlyEqual b.TimeEnd t2 mergeTolerance = true then L ++ [⟨w, t1, t2⟩]
      else L ++ [b] ++ [⟨w, t1, t2⟩] := by
  simp only [AddRecognizedWord, h, List.getLast?_append, List.getLast?_singleton, Option.or_some,
    List.dropLast_concat, Bool.and_eq_true]

/-- C2 as stated fails: the last entry is `(a, 0, 0)` and the token `b` comes with both
times equal to the float `0.05f = 13421773 / 2 ^ 28`; the start (and the end) of the last
entry is farther than 0.05 s from the new time, so the claim has the token added at the end,
but the code replaces the last entry. The same happens with the last start `3 / 2 ^ 30` and
the new start `13421774 / 2 ^ 28`, which are farther apart than `0.05f` itself: their float
difference is rounded to `-0.05f`. -/
theorem merge_rule_counterexample :
    ¬ (|(0 : ℚ) - 13421773 / 268435456| ≤ 1 / 20) ∧
    AddRecognizedWord [⟨"a".toList, 0, 0⟩] "b".toList (13421773 / 268435456)
        (13421773 / 268435456)
      = [⟨"b".toList, 13421773 / 268435456, 13421773 / 268435456⟩] ∧
    ¬ (|(3 / 1073741824 : ℚ) - 13421774 / 268435456| ≤ 13421773 / 268435456) ∧
    floatSub (3 / 1073741824) (13421774 / 268435456) = -(13421773 / 268435456) ∧
    AddRecognizedWord [⟨"a".toList, 3 / 1073741824, 1⟩] "b".toList (13421774 / 268435456) 1
      = [⟨"b".toList, 13421774 / 268435456, 1⟩] := by
  have hb : normalizeWord "b".toList = some "b".toList := by decide
  refine ⟨by norm_num [abs_le], ?_, by norm_num [abs_le], by decide!, ?_⟩
  · have h := AddRecognizedWord_concat hb [] ⟨"a".toList, 0, 0⟩ (13421773 / 268435456)
      (13421773 / 268435456)
    rw [if_pos (by decide!)] at h
    simpa using h
  · have h := AddRecognizedWord_concat hb [] ⟨"a".toList, 3 / 1073741824, 1⟩
      (13421774 / 268435456) 1
    rw [if_pos (by decide!)] at h
    simpa using h

/-- C2, amended. Merge rule of `AddRecognizedWord`: for a token that normalizes to the word
`w` (which is then non-empty), when the list has a last entry and the float differences
`Last.TimeStart - Time1` and `Last.TimeEnd - Time2` are both at most `0.05f` in absolute
value, the result is the list with only its last entry replaced by `(w, Time1, Time2)` and
has the same length; in every other case the result is the list with `(w, Time1, Time2)`
added at the end. The first case holds in particular when the start of the last entry is
within 0.05 s of `Time1` and its end within 0.05 s of `Time2`. -/
theorem AddRecognizedWord_merge_rule (RecognizedData : List FSingeWordData) (Word w : FString)
    (Time1 Time2 : ℚ) (hw : normalizeWord Word = some w) :
    w ≠ [] ∧
    (∀ Last, RecognizedData.getLast? = some Last →
      |floatSub Last.TimeStart Time1| ≤ 13421773 / 268435456 →
      |floatSub Last.TimeEnd Time2| ≤ 13421773 / 268435456 →
        AddRecognizedWord RecognizedData Word Time1 Time2
            = RecognizedData.dropLast ++ [⟨w, Time1, Time2⟩] ∧
        (AddRecognizedWord RecognizedData Word Time1 Time2).length = RecognizedData.length) ∧
    ((∀ Last, RecognizedData.getLast? = some Last →
        ¬ (|floatSub Last.TimeStart Time1| ≤ 13421773 / 268435456 ∧
           |floatSub Last.TimeEnd Time2| ≤ 13421773 / 268435456)) →
      AddRecognizedWord RecognizedData Word Time1 Time2
        = RecognizedData ++ [⟨w, Time1, Time2⟩]) ∧
    (∀ Last, RecognizedData.getLast? = some Last →
      |Last.TimeStart - Time1| ≤ 1 / 20 → |Last.TimeEnd - Time2| ≤ 1 / 20 →
        AddRecognizedWord RecognizedData Word Time1 Time2
            = RecognizedData.dropLast ++ [⟨w, Time1, Time2⟩] ∧
        (AddRecognizedWord RecognizedData Word Time1 Time2).length = RecognizedData.length) := by
  have hfloat : ∀ Last, RecognizedData.getLast? = some Last →
      IsNearlyEqual Last.TimeStart Time1 mergeTolerance = true →
      IsNearlyEqual Last.TimeEnd Time2 mergeTolerance = true →
        AddRecognizedWord RecognizedData Word Time1 Time2
            = RecognizedData.dropLast ++ [⟨w, Time1, Time2⟩] ∧
        (AddRecognizedWord RecognizedData Word Time1 Time2).length = RecognizedData.length := by
    intro Last hLast h1 h2
    obtain ⟨L, rfl⟩ := List.getLast?_eq_some_iff.mp hLast
    rw [AddRecognizedWord_concat hw, if_pos ⟨h1, h2⟩]
    simp
  refine ⟨(normalizeWord_some_props hw).1, ?_, ?_, ?_⟩
  · intro Last hLast h1 h2
    exact hfloat Last hLast ((IsNearlyEqual_iff _ _ _).mpr h1) ((IsNearlyEqual_iff _ _ _).mpr h2)
  · intro hno
    rcases List.eq_nil_or_concat RecognizedData with h0 | ⟨L, b, h0⟩
    · subst h0
      rw [AddRecognizedWord_nil hw]
      rfl
    · rw [List.concat_eq_append] at h0
      subst h0
      rw [AddRecognizedWord_concat hw, if_neg]
      intro hc
      exact hno b (by simp) ⟨(IsNearlyEqual_iff _ _ _).mp hc.1, (IsNearlyEqual_iff _ _ _).mp hc.2⟩
  · intro Last hLast h1 h2
    exact hfloat Last hLast (IsNearlyEqual_of_near h1) (IsNearlyEqual_of_near h2)

/-- The example of C2 with the floats nearest to 1.20, 1.02 and 1.21: `("wrold", 1.00, 1.20)`
followed by `("world", 1.02, 1.21)` on an empty list leaves exactly one entry, with the text
`world`. Two tokens with the engine time marks 10..20 and 15..25, whose float times 0.1f and
0.15f differ by more than `0.05f`, are both kept. -/
theorem AddRecognizedWord_merge_rule_witness :
    normalizeWord "world".toList = some "world".toList ∧
    AddRecognizedWord (AddRecognizedWord [] "wrold".toList 1 (5033165 / 4194304)) "world".toList
        (2139095 / 2097152) (1268777 / 1048576)
      = [⟨"world".toList, 2139095 / 2097152, 1268777 / 1048576⟩] ∧
    (addSegmentTokens [] [⟨"a".toList, 10, 20⟩, ⟨"b".toList, 15, 25⟩]).map (fun e => e.Word)
      = ["a".toList, "b".toList] := by
  have h1 : AddRecognizedWord [] "wrold".toList 1 (5033165 / 4194304)
      = [⟨"wrold".toList, 1, 5033165 / 4194304⟩] :=
    AddRecognizedWord_nil (by decide) 1 (5033165 / 4194304)
  refine ⟨by decide, ?_, by decide!⟩
  rw [h1]
  exact ((AddRecognizedWord_merge_rule [⟨"wrold".toList, 1, 5033165 / 4194304⟩] "world".toList
    "world".toList (2139095 / 2097152) (1268777 / 1048576) (by decide)).2.2.2
    ⟨"wrold".toList, 1, 5033165 / 4194304⟩ rfl
    (by norm_num [abs_le]) (by norm_num [abs_le])).1

/-- C4. Service-token rejection: a token that starts with one of the service markers of
`l_service_tokens` is rejected by the normalizer, and `AddRecognizedWord` leaves
`RecognizedData` as it is, whatever the times and the prior list. -/
theorem service_token_rejected (token : FString) (h : token ∈ l_service_tokens)
    (rest : FString) (RecognizedData : List FSingeWordData) (Time1 Time2 : ℚ) :
    normalizeWord (token ++ rest) = none ∧
    AddRecognizedWord RecognizedData (token ++ rest) Time1 Time2 = RecognizedData := by
  have hn : normalizeWord (token ++ rest) = none := by
    simp [normalizeWord, isServiceToken_of_prefix h rest]
  exact ⟨hn, AddRecognizedWord_none hn _ _ _⟩

/-- The example of C4: the token `[_SOT_]` is rejected. -/
theorem service_token_rejected_witness :
    "[_SOT_]".toList ∈ l_service_tokens ∧ normalizeWord "[_SOT_]".toList = none ∧
    AddRecognizedWord [⟨"hello".toList, 0, 1 / 2⟩] "[_SOT_]".toList 1 2
      = [⟨"hello".toList, 0, 1 / 2⟩] := by
  have h := service_token_rejected "[_SOT_]".toList (by decide) [] [⟨"hello".toList, 0, 1 / 2⟩] 1 2
  rw [List.append_nil] at h
  exact ⟨by decide, h.1, h.2⟩

/-- C6. Normalizer idempotence: a word returned by the normalization of `AddRecognizedWord`
is returned unchanged when it is normalized again. -/
theorem normalizeWord_idempotent (Word w : FString) (h : normalizeWord Word = some w) :
    normalizeWord w = some w := by
  obtain ⟨p1, p2, p3, p4, p5⟩ := normalizeWord_some_props h
  exact normalizeWord_of_props p1 p2 p3 p4 p5

/-- An instance of C6: `Hello,` normalizes to `hello`, and `hello` to itself. -/
theorem normalizeWord_idempotent_witness :
    normalizeWord "Hello,".toList = some "hello".toList ∧
    normalizeWord "hello".toList = some "hello".toList :=
  ⟨by decide, normalizeWord_idempotent "Hello,".toList "hello".toList (by decide)⟩

/-- The three calls that break the adjacency invariant: the third replaces the second and
lands next to the first. -/
theorem addWords_three_calls :
    addWords [⟨"a".toList, 0, 1 / 10⟩, ⟨"b".toList, 3 / 50, 4 / 25⟩, ⟨"c".toList, 3 / 100, 13 / 100⟩]
      = [⟨"a".toList, 0, 1 / 10⟩, ⟨"c".toList, 3 / 100, 13 / 100⟩] := by
  have ha : normalizeWord "a".toList = some "a".toList := by decide
  have hb : normalizeWord "b".toList = some "b".toList := by decide
  have hc : normalizeWord "c".toList = some "c".toList := by decide
  have h1 : AddRecognizedWord [] "a".toList 0 (1 / 10) = [⟨"a".toList, 0, 1 / 10⟩] :=
    AddRecognizedWord_nil ha _ _
  have h2 : AddRecognizedWord [⟨"a".toList, 0, 1 / 10⟩] "b".toList (3 / 50) (4 / 25)
      = [⟨"a".toList, 0, 1 / 10⟩, ⟨"b".toList, 3 / 50, 4 / 25⟩] := by
    have := AddRecognizedWord_concat hb [] ⟨"a".toList, 0, 1 / 10⟩ (3 / 50) (4 / 25)
    rw [if_neg (by decide!)] at this
    simpa using this
  have h3 : AddRecognizedWord [⟨"a".toList, 0, 1 / 10⟩, ⟨"b".toList, 3 / 50, 4 / 25⟩] "c".toList
      (3 / 100) (13 / 100) = [⟨"a".toList, 0, 1 / 10⟩, ⟨"c".toList, 3 / 100, 13 / 100⟩] := by
    have := AddRecognizedWord_concat hc [⟨"a".toList, 0, 1 / 10⟩] ⟨"b".toList, 3 / 50, 4 / 25⟩
      (3 / 100) (13 / 100)
    rw [if_pos (by decide!)] at this
    simpa using this
  show AddRecognizedWord (AddRecognizedWord (AddRecognizedWord [] "a".toList 0 (1 / 10))
    "b".toList (3 / 50) (4 / 25)) "c".toList (3 / 100) (13 / 100) = _
  rw [h1, h2, h3]

/-- C3 as stated fails: after `(a, 0.00, 0.10)`, `(b, 0.06, 0.16)` and `(c, 0.03, 0.13)` the
list is `[(a, 0.00, 0.10), (c, 0.03, 0.13)]`, two adjacent entries whose starts and ends
are both within 0.05 s. -/
theorem adjacency_counterexample : ¬ ∀ calls : List WordCall, NoNearAdjacent (addWords calls) := by
  intro h
  have h1 : NoNearAdjacent [⟨"a".toList, 0, 1 / 10⟩, ⟨"c".toList, 3 / 100, 13 / 100⟩] := by
    rw [← addWords_three_calls]
    exact h _
  have h2 : ¬ NearlyIdentical ⟨"a".toList, 0, 1 / 10⟩ ⟨"c".toList, 3 / 100, 13 / 100⟩ :=
    List.Chain'.rel_head h1
  exact h2 (by norm_num [NearlyIdentical, abs_le])

/-- The invariant behind C3 as amended: consecutive entries are in time order and not nearly
identical, and the last entry is not after any call still to come. -/
theorem addWordsFrom_chain (calls : List WordCall) :
    ∀ data : List FSingeWordData,
      List.Chain' (fun a b => (a.TimeStart ≤ b.TimeStart ∧ a.TimeEnd ≤ b.TimeEnd)
        ∧ ¬ NearlyIdentical a b) data →
      List.Pairwise TimesNotBefore calls →
      (∀ Last ∈ data.getLast?, ∀ c ∈ calls, Last.TimeStart ≤ c.Time1 ∧ Last.TimeEnd ≤ c.Time2) →
      List.Chain' (fun a b => (a.TimeStart ≤ b.TimeStart ∧ a.TimeEnd ≤ b.TimeEnd)
        ∧ ¬ NearlyIdentical a b) (addWordsFrom data calls) := by
  induction calls with
  | nil => intro data h _ _; exact h
  | cons c cs ih =>
    intro data hdata hpw hlast
    rw [List.pairwise_cons] at hpw
    show List.Chain' _ (addWordsFrom (AddRecognizedWord data c.Word c.Time1 c.Time2) cs)
    cases hn : normalizeWord c.Word with
    | none =>
      rw [AddRecognizedWord_none hn]
      exact ih data hdata hpw.2 (fun L hL d hd => hlast L hL d (List.mem_cons_of_mem c hd))
    | some w =>
      have hnew : ∀ L : List FSingeWordData,
          ∀ Last ∈ (L ++ [(⟨w, c.Time1, c.Time2⟩ : FSingeWordData)]).getLast?, ∀ d ∈ cs,
            Last.TimeStart ≤ d.Time1 ∧ Last.TimeEnd ≤ d.Time2 := by
        intro L Last hL d hd
        simp only [List.getLast?_append, List.getLast?_singleton, Option.or_some,
          Option.mem_def, Option.some.injEq] at hL
        subst hL
        exact hpw.1 d hd
      rcases List.eq_nil_or_concat data with h0 | ⟨L, b, h0⟩
      · subst h0
        rw [AddRecognizedWord_nil hn]
        exact ih _ (List.chain'_singleton _) hpw.2 (hnew [])
      · rw [List.concat_eq_append] at h0
        subst h0
        have hb : b.TimeStart ≤ c.Time1 ∧ b.TimeEnd ≤ c.Time2 :=
          hlast b (by simp) c (List.mem_cons_self c cs)
        rw [List.chain'_append] at hdata
        obtain ⟨hL, _, hLb⟩ := hdata
        rw [AddRecognizedWord_concat hn]
        split
        · refine ih _ ?_ hpw.2 (hnew L)
          rw [List.chain'_append]
          refine ⟨hL, List.chain'_singleton _, ?_⟩
          intro x hx y hy
          simp only [List.head?_cons, Option.mem_def, Option.some.injEq] at hy
          subst hy
          have hxb := hLb x hx b (by simp)
          obtain ⟨⟨hs, he⟩, hnear⟩ := hxb
          refine ⟨⟨le_trans hs hb.1, le_trans he hb.2⟩, ?_⟩
          intro hN
          apply hnear
          unfold NearlyIdentical at hN ⊢
          simp only [abs_le] at hN ⊢
          obtain ⟨⟨h1, h2⟩, h3, h4⟩ := hN
          refine ⟨⟨by linarith, by linarith⟩, by linarith, by linarith⟩
        · rename_i hnot
          refine ih _ ?_ hpw.2 ?_
          · rw [List.chain'_append]
            refine ⟨?_, List.chain'_singleton _, ?_⟩
            · rw [List.chain'_append]
              exact ⟨hL, List.chain'_singleton _, hLb⟩
            · intro x hx y hy
              simp only [List.getLast?_append, List.getLast?_singleton, Option.or_some,
                Option.mem_def, Option.some.injEq, List.head?_cons] at hx hy
              subst hx
              subst hy
              refine ⟨hb, ?_⟩
              intro hN
              exact hnot ⟨IsNearlyEqual_of_near hN.1, IsNearlyEqual_of_near hN.2⟩
          · exact hnew (L ++ [b])

/-- C3, amended. When the times passed to `AddRecognizedWord` do not decrease from one call
to the next (neither the start times nor the end times), the list built from an empty
`RecognizedData` has no two adjacent entries with nearly identical time ranges. -/
theorem adjacency_of_monotone_times (calls : List WordCall)
    (h : List.Chain' TimesNotBefore calls) : NoNearAdjacent (addWords calls) := by
  have hpw : List.Pairwise TimesNotBefore calls := by
    haveI : IsTrans WordCall TimesNotBefore :=
      ⟨fun a b c hab hbc => ⟨le_trans hab.1 hbc.1, le_trans hab.2 hbc.2⟩⟩
    exact List.chain'_iff_pairwise.mp h
  have := addWordsFrom_chain calls [] List.chain'_nil hpw (by simp)
  exact this.imp (fun _ _ hab => hab.2)

/-- An instance of C3 as amended: three calls in time order, the second replacing the
first. -/
theorem adjacency_of_monotone_times_witness :
    List.Chain' TimesNotBefore
      [⟨"wrold".toList, 1, 6 / 5⟩, ⟨"world".toList, 51 / 50, 121 / 100⟩, ⟨"next".toList, 3 / 2, 9 / 5⟩] ∧
    NoNearAdjacent (addWords
      [⟨"wrold".toList, 1, 6 / 5⟩, ⟨"world".toList, 51 / 50, 121 / 100⟩, ⟨"next".toList, 3 / 2, 9 / 5⟩]) := by
  have h : List.Chain' TimesNotBefore
      [⟨"wrold".toList, 1, 6 / 5⟩, ⟨"world".toList, 51 / 50, 121 / 100⟩, ⟨"next".toList, 3 / 2, 9 / 5⟩] := by
    simp only [List.chain'_cons, List.chain'_singleton, and_true, TimesNotBefore]
    norm_num
  exact ⟨h, adjacency_of_monotone_times _ h⟩

/-! ## The request queue and its dispatcher -/

theorem run_newSegments (Segs : List (List SegmentData)) :
    ∀ s : WhisperState, 0 < s.running →
      ∃ s1, run s (Segs.map Event.newSegment) = some s1 ∧
        s1.ActiveRequest = s.ActiveRequest ∧ s1.RequestsQueue = s.RequestsQueue ∧
        s1.pendingTasks = s.pendingTasks ∧ s1.running = s.running ∧
        s1.delivered = s.delivered ∧ s1.WhisperContext = s.WhisperContext ∧
        s1.WhisperParameters = s.WhisperParameters := by
  induction Segs with
  | nil => intro s _; exact ⟨s, rfl, rfl, rfl, rfl, rfl, rfl, rfl, rfl⟩
  | cons g gs ih =>
    intro s hs
    have hstep : step s (Event.newSegment g) = some (NewTextSegmentCallback s g) := by
      simp [step, hs]
    have hk : (NewTextSegmentCallback s g).ActiveRequest = s.ActiveRequest ∧
        (NewTextSegmentCallback s g).RequestsQueue = s.RequestsQueue ∧
        (NewTextSegmentCallback s g).pendingTasks = s.pendingTasks ∧
        (NewTextSegmentCallback s g).running = s.running ∧
        (NewTextSegmentCallback s g).delivered = s.delivered ∧
        (NewTextSegmentCallback s g).WhisperContext = s.WhisperContext ∧
        (NewTextSegmentCallback s g).WhisperParameters = s.WhisperParameters := by
      unfold NewTextSegmentCallback
      split <;> exact ⟨rfl, rfl, rfl, rfl, rfl, rfl, rfl⟩
    obtain ⟨s1, h1, h2, h3, h4, h5, h6, h7, h8⟩ := ih (NewTextSegmentCallback s g) (by rw [hk.2.2.2.1]; exact hs)
    refine ⟨s1, ?_, ?_, ?_, ?_, ?_, ?_, ?_, ?_⟩
    · simp only [List.map_cons, run, hstep, Option.some_bind, h1]
    · rw [h2, hk.1]
    · rw [h3, hk.2.1]
    · rw [h4, hk.2.2.1]
    · rw [h5, hk.2.2.2.1]
    · rw [h6, hk.2.2.2.2.1]
    · rw [h7, hk.2.2.2.2.2.1]
    · rw [h8, hk.2.2.2.2.2.2]

/-- C1. The code does not keep the single-flight invariant. From the initial state:
request 1 is submitted and its worker task starts (the queue is empty again, one engine
call is in progress); request 2 is submitted, `ResampleTempBuffer` finds the queue empty
and calls `RecognizeFromQueue`, which hands out a second worker task; when that task
starts, two engine calls are in progress on the one engine context. -/
theorem single_flight_violated :
    ∃ s1 s2,
      run initialState [.submit (some 1) [1 / 2] 16000 1 10, .workerDequeue] = some s1 ∧
      s1.RequestsQueue = [] ∧ s1.running = 1 ∧ s1.pendingTasks = 0 ∧
      run s1 [.submit (some 2) [1 / 4] 16000 2 20, .workerDequeue] = some s2 ∧
      s2.running = 2 ∧ Reachable s2 :=
  ⟨_, _, rfl, rfl, rfl, rfl, rfl, rfl,
    ⟨[.submit (some 1) [1 / 2] 16000 1 10, .workerDequeue,
      .submit (some 2) [1 / 4] 16000 2 20, .workerDequeue], rfl⟩⟩

/-- C8. The code does not deliver in submission order when a request is submitted while
another is running. Request 1 is submitted and started, request 2 is submitted and its
worker task starts as well (`ActiveRequest` is now request 2); a segment with the token
`two` is reported, then the two engine calls end with progress 100. Both deliveries carry
the id and flag of request 2 and the same transcript and word list, and request 1 is never
delivered. -/
theorem fifo_delivery_violated :
    ∃ s,
      run initialState
        [.submit (some 1) [1 / 2] 16000 1 10, .workerDequeue,
         .submit (some 2) [1 / 4] 16000 2 20, .workerDequeue,
         .newSegment [⟨" two".toList, [⟨" two".toList, 0, 50⟩]⟩],
         .progress 100, .progress 100] = some s ∧
      s.delivered.map (fun d => (d.Sender, d.Id, d.Flag, d.Text, d.Words.map fun e => e.Word))
        = [(some 2, 2, 20, "two".toList, ["two".toList]),
           (some 2, 2, 20, "two".toList, ["two".toList])] ∧
      s.running = 0 ∧ s.pendingTasks = 0 ∧ s.RequestsQueue = [] :=
by
  refine ⟨_, rfl, ?_, rfl, rfl, rfl⟩
  rfl

/-- C9. The code stalls the queue when the engine call fails. Requests 1 and 2 are
submitted, the worker task of request 1 starts and its engine call returns a failure
status: nothing is delivered, request 2 is still queued, no worker task is pending and no
engine call is in progress, so no worker-dequeue can occur; a further submission finds the
queue non-empty and starts nothing either. -/
theorem engine_failure_stalls_queue :
    ∃ s,
      run initialState
        [.submit (some 1) [1 / 2] 16000 1 10, .submit (some 2) [1 / 4] 16000 2 20,
         .workerDequeue, .engineFailure] = some s ∧
      s.delivered = [] ∧ s.RequestsQueue.map (fun r => r.Id) = [2] ∧
      s.pendingTasks = 0 ∧ s.running = 0 ∧
      step s .workerDequeue = none ∧ step s (.progress 100) = none ∧
      (Recognize_32_Implementation s (some 3) [1 / 8] 16000 3 30).pendingTasks = 0 ∧
      (Recognize_32_Implementation s (some 3) [1 / 8] 16000 3 30).RequestsQueue.map (fun r => r.Id)
        = [2, 3] :=
  ⟨_, rfl, rfl, rfl, rfl, rfl, rfl, rfl, rfl, rfl⟩

/-- C7 as stated fails for a null sender: the request `(nullptr, buffer, 42, 7)` submitted
to the idle initial state is queued, dequeued and run, and its progress 100 event delivers
no result. -/
theorem round_trip_counterexample :
    Idle initialState ∧
    ∃ s, run initialState [.submit none [1 / 2] 16000 42 7, .workerDequeue, .progress 100]
        = some s ∧ s.delivered = [] :=
  ⟨⟨rfl, rfl, rfl⟩, _, rfl, rfl⟩

/-- C7, amended. A float32 request `(Sender, PCMData, Id, Flag)` with a valid sender,
submitted at the target rate to an idle subsystem whose engine context and parameters
exist, is the one queued request; the worker task moves it unchanged into `ActiveRequest`
and starts the one engine call; whatever segments are then reported, the progress 100 event
makes exactly one more `OnExternalRecognizeResult` call, to `Sender` with `Id` and `Flag`,
the cleaned transcript and the word list, and leaves the subsystem idle. -/
theorem round_trip_one_request (s : WhisperState) (Sender : SenderPtr) (PCMData : List ℚ)
    (Id : Int) (Flag : Nat) (Segs : List (List SegmentData))
    (hidle : Idle s) (hctx : s.WhisperContext = true) (hpar : s.WhisperParameters = true)
    (hvalid : IsValid Sender = true) :
    ∃ s1 s2 s3 s4,
      step s (.submit Sender PCMData WHISPER_SAMPLE_RATE Id Flag) = some s1 ∧
      s1.RequestsQueue = [⟨Sender, Id, Flag, PCMData⟩] ∧ s1.pendingTasks = 1 ∧
      step s1 .workerDequeue = some s2 ∧
      s2.ActiveRequest = ⟨Sender, Id, Flag, PCMData⟩ ∧ s2.RequestsQueue = [] ∧
      s2.running = 1 ∧ s2.pendingTasks = 0 ∧
      run s2 (Segs.map Event.newSegment) = some s3 ∧
      step s3 (.progress 100) = some s4 ∧
      s4.delivered = s.delivered ++
        [⟨Sender, Id, Flag,
          TrimStartAndEndInline (ReplaceInline s3.RecognizedString [' ', ' '] [' ']),
          s3.RecognizedData⟩] ∧
      Idle s4 := by
  obtain ⟨hq, hp, hr⟩ := hidle
  let s1 : WhisperState := Recognize_32_Implementation s Sender PCMData WHISPER_SAMPLE_RATE Id Flag
  have e1q : s1.RequestsQueue = [⟨Sender, Id, Flag, PCMData⟩] := by
    simp [s1, Recognize_32_Implementation, ResampleTempBuffer, RecognizeFromQueue, hq]
  have e1p : s1.pendingTasks = 1 := by
    simp [s1, Recognize_32_Implementation, ResampleTempBuffer, RecognizeFromQueue, hq, hp]
  have e1r : s1.running = 0 := by
    simp [s1, Recognize_32_Implementation, ResampleTempBuffer, RecognizeFromQueue, hq, hr]
  have e1d : s1.delivered = s.delivered := by
    simp [s1, Recognize_32_Implementation, ResampleTempBuffer, RecognizeFromQueue, hq]
  have e1c : s1.WhisperContext = true ∧ s1.WhisperParameters = true := by
    simp [s1, Recognize_32_Implementation, ResampleTempBuffer, RecognizeFromQueue, hq, hctx, hpar]
  let s2 : WhisperState := workerTask s1
  have e2a : s2.ActiveRequest = ⟨Sender, Id, Flag, PCMData⟩ := by
    simp [s2, workerTask, e1q]
  have e2q : s2.RequestsQueue = [] := by simp [s2, workerTask, e1q]
  have e2r : s2.running = 1 := by simp [s2, workerTask, e1q, e1r]
  have e2p : s2.pendingTasks = 0 := by simp [s2, workerTask, e1q, e1p]
  have e2d : s2.delivered = s.delivered := by simp [s2, workerTask, e1q, e1d]
  have e2c : s2.WhisperContext = true ∧ s2.WhisperParameters = true := by
    simp [s2, workerTask, e1q, e1c]
  obtain ⟨s3, h3, h3a, h3q, h3p, h3r, h3d, h3c, h3w⟩ := run_newSegments Segs s2 (by omega)
  rw [e2a] at h3a
  rw [e2q] at h3q
  rw [e2p] at h3p
  rw [e2r] at h3r
  rw [e2d] at h3d
  rw [e2c.1] at h3c
  rw [e2c.2] at h3w
  have h4 : step s3 (.progress 100) = some
      { ProgressCallback s3 100 with running := (ProgressCallback s3 100).running - 1 } := by
    simp [step, h3r, Clamp]
  refine ⟨s1, s2, s3, _, rfl, e1q, e1p, ?_, e2a, e2q, e2r, e2p, h3, h4, ?_, ?_⟩
  · simp [step, e1p, s2]
  · simp [ProgressCallback, progressTask, RecognizeFromQueue, Clamp, h3c, h3w, h3a, h3q, h3d,
      hvalid]
  · simp [Idle, ProgressCallback, progressTask, RecognizeFromQueue, Clamp, h3c, h3w, h3a, h3q,
      h3p, h3r, hvalid]

/-- The example of C7: job 42 with flag 7 from sender 1, three samples, one reported
segment; the one delivery is `onResult(42, 7, "Hello, world.", [hello])`. -/
theorem round_trip_one_request_witness :
    (Idle initialState ∧ IsValid (some 1) = true) ∧
    (∃ s1 s2 s3 s4,
      step initialState (.submit (some 1) [1 / 2, -1 / 4, 0] WHISPER_SAMPLE_RATE 42 7) = some s1 ∧
      s1.RequestsQueue = [⟨some 1, 42, 7, [1 / 2, -1 / 4, 0]⟩] ∧ s1.pendingTasks = 1 ∧
      step s1 .workerDequeue = some s2 ∧
      s2.ActiveRequest = ⟨some 1, 42, 7, [1 / 2, -1 / 4, 0]⟩ ∧ s2.RequestsQueue = [] ∧
      s2.running = 1 ∧ s2.pendingTasks = 0 ∧
      run s2 ([[⟨" Hello,  world.".toList, [⟨" Hello".toList, 0, 50⟩, ⟨",".toList, 50, 50⟩]⟩]].map
        Event.newSegment) = some s3 ∧
      step s3 (.progress 100) = some s4 ∧
      s4.delivered = initialState.delivered ++
        [⟨some 1, 42, 7,
          TrimStartAndEndInline (ReplaceInline s3.RecognizedString [' ', ' '] [' ']),
          s3.RecognizedData⟩] ∧
      Idle s4) ∧
    (∃ s, run initialState
        [.submit (some 1) [1 / 2, -1 / 4, 0] 16000 42 7, .workerDequeue,
         .newSegment [⟨" Hello,  world.".toList, [⟨" Hello".toList, 0, 50⟩, ⟨",".toList, 50, 50⟩]⟩],
         .progress 100] = some s ∧
      s.delivered.map (fun d => (d.Sender, d.Id, d.Flag, d.Text, d.Words.map fun e => e.Word)) =
        [(some 1, 42, 7, "Hello, world.".toList, ["hello".toList])]) := by
  refine ⟨⟨⟨rfl, rfl, rfl⟩, rfl⟩, ?_, ⟨_, rfl, ?_⟩⟩
  · exact round_trip_one_request initialState (some 1) [1 / 2, -1 / 4, 0] 42 7
      [[⟨" Hello,  world.".toList, [⟨" Hello".toList, 0, 50⟩, ⟨",".toList, 50, 50⟩]⟩]]
      ⟨rfl, rfl, rfl⟩ rfl rfl rfl
  · rfl

/-- C10 as stated fails: request 42 is submitted and started, `StopRecognition` is called
(the stop flag is set, the sender of `ActiveRequest` is valid, nothing is delivered yet),
and the job's progress 100 event still delivers `onResult(42, 7, ..)`. -/
theorem cancelled_job_counterexample :
    ∃ s1 s2,
      run initialState [.submit (some 1) [1 / 2] 16000 42 7, .workerDequeue, .stop (some 1)]
        = some s1 ∧
      s1.bBreakWork = true ∧ IsValid s1.ActiveRequest.Sender = true ∧
      s1.ActiveRequest.Id = 42 ∧ s1.delivered = [] ∧
      step s1 (.progress 100) = some s2 ∧
      s2.delivered.map (fun d => (d.Sender, d.Id, d.Flag)) = [(some 1, 42, 7)] :=
  ⟨_, _, rfl, rfl, rfl, rfl, rfl, rfl, rfl⟩

/-- C10, amended. With a job in progress, the engine context and parameters present and a
valid sender in `ActiveRequest`: `StopRecognition` makes no delivery, sets the stop flag and
leaves `ActiveRequest` as it is, so that the abort check answers true; when the engine call
then ends with a failure status and no progress 100 event, nothing is delivered; but a
progress 100 event handled after the stop still makes one `OnExternalRecognizeResult`
call with the id and flag of `ActiveRequest`, because the handler does not read the flag. -/
theorem stop_then_progress (s : WhisperState) (Sender : SenderPtr)
    (hctx : s.WhisperContext = true) (hpar : s.WhisperParameters = true)
    (hrun : 0 < s.running) (hvalid : IsValid s.ActiveRequest.Sender = true) :
    (StopRecognition_Implementation s Sender).bBreakWork = true ∧
    (StopRecognition_Implementation s Sender).delivered = s.delivered ∧
    (StopRecognition_Implementation s Sender).ActiveRequest = s.ActiveRequest ∧
    EncoderAbortCallback (some (StopRecognition_Implementation s Sender)) = true ∧
    (∃ s2, step (StopRecognition_Implementation s Sender) .engineFailure = some s2 ∧
      s2.delivered = s.delivered) ∧
    (∃ s3, step (StopRecognition_Implementation s Sender) (.progress 100) = some s3 ∧
      s3.delivered = s.delivered ++
        [⟨s.ActiveRequest.Sender, s.ActiveRequest.Id, s.ActiveRequest.Flag,
          TrimStartAndEndInline (ReplaceInline s.RecognizedString [' ', ' '] [' ']),
          s.RecognizedData⟩]) := by
  have hrun1 : 0 < (StopRecognition_Implementation s Sender).running := hrun
  have hf : step (StopRecognition_Implementation s Sender) .engineFailure = some
      { StopRecognition_Implementation s Sender with
        running := (StopRecognition_Implementation s Sender).running - 1 } := by
    simp only [step, hrun1, if_true]
  have hp : step (StopRecognition_Implementation s Sender) (.progress 100) = some
      { ProgressCallback (StopRecognition_Implementation s Sender) 100 with
        running := (ProgressCallback (StopRecognition_Implementation s Sender) 100).running - 1 } := by
    simp [step, hrun1, Clamp]
  refine ⟨rfl, rfl, rfl, ?_, ⟨_, hf, rfl⟩, ⟨_, hp, ?_⟩⟩
  · simp [EncoderAbortCallback, StopRecognition_Implementation, ShouldBreak, hctx, hpar]
  · simp [ProgressCallback, progressTask, RecognizeFromQueue, Clamp, hctx, hpar, hvalid,
      StopRecognition_Implementation]

/-- An instance of C10 as amended: the state after request 42 was submitted and started. -/
theorem stop_then_progress_witness :
    ∃ s, run initialState [.submit (some 1) [1 / 2] 16000 42 7, .workerDequeue] = some s ∧
      (0 < s.running ∧ IsValid s.ActiveRequest.Sender = true) ∧
      (StopRecognition_Implementation s (some 1)).bBreakWork = true ∧
      EncoderAbortCallback (some (StopRecognition_Implementation s (some 1))) = true ∧
      (∃ s3, step (StopRecognition_Implementation s (some 1)) (.progress 100) = some s3 ∧
        s3.delivered = s.delivered ++
          [⟨s.ActiveRequest.Sender, s.ActiveRequest.Id, s.ActiveRequest.Flag,
            TrimStartAndEndInline (ReplaceInline s.RecognizedString [' ', ' '] [' ']),
            s.RecognizedData⟩]) := by
  refine ⟨_, rfl, ⟨by decide, rfl⟩, ?_⟩
  have h := stop_then_progress
    (workerTask (Recognize_32_Implementation initialState (some 1) [1 / 2] 16000 42 7)) (some 1)
    rfl rfl (by decide) rfl
  exact ⟨h.1, h.2.2.2.1, h.2.2.2.2.2⟩

/-! ## Stop, resubmission and the abort callbacks -/

/-- C11. Effect and frame of stop: in every state `StopRecognition` leaves the request queue
empty and the stop flag set; `ActiveRequest`, `RecognizedString` and `RecognizedData` are
unchanged; no worker task is handed out, no engine call begins and nothing is delivered. -/
theorem stop_effect_and_frame (s : WhisperState) (Sender : SenderPtr) :
    (StopRecognition_Implementation s Sender).RequestsQueue = [] ∧
    (StopRecognition_Implementation s Sender).bBreakWork = true ∧
    ShouldBreak (StopRecognition_Implementation s Sender) = true ∧
    (StopRecognition_Implementation s Sender).ActiveRequest = s.ActiveRequest ∧
    (StopRecognition_Implementation s Sender).RecognizedString = s.RecognizedString ∧
    (StopRecognition_Implementation s Sender).RecognizedData = s.RecognizedData ∧
    (StopRecognition_Implementation s Sender).pendingTasks = s.pendingTasks ∧
    (StopRecognition_Implementation s Sender).running = s.running ∧
    (StopRecognition_Implementation s Sender).delivered = s.delivered ∧
    step s (.stop Sender) = some (StopRecognition_Implementation s Sender) :=
  ⟨rfl, rfl, rfl, rfl, rfl, rfl, rfl, rfl, rfl, rfl⟩

/-- C12. The queue is not poisoned by a stop: in every state, a float32 submission at the
target rate that follows `StopRecognition` is the one request of the queue, one more worker
task is handed out, the stop flag is cleared and `RecognizedString` and `RecognizedData` are
empty; the next worker task that starts moves this request into `ActiveRequest` and begins
the engine call with the transcript still empty and the flag still cleared. -/
theorem submit_after_stop (s : WhisperState) (Stopper Sender : SenderPtr) (PCMData : List ℚ)
    (Id : Int) (Flag : Nat) :
    ∃ s1 s2,
      run s [.stop Stopper, .submit Sender PCMData WHISPER_SAMPLE_RATE Id Flag] = some s1 ∧
      s1.RequestsQueue = [⟨Sender, Id, Flag, PCMData⟩] ∧
      s1.pendingTasks = s.pendingTasks + 1 ∧
      s1.bBreakWork = false ∧ s1.RecognizedString = [] ∧ s1.RecognizedData = [] ∧
      step s1 .workerDequeue = some s2 ∧
      s2.ActiveRequest = ⟨Sender, Id, Flag, PCMData⟩ ∧ s2.RequestsQueue = [] ∧
      s2.running = s.running + 1 ∧
      s2.bBreakWork = false ∧ s2.RecognizedString = [] ∧ s2.RecognizedData = [] := by
  have hq : (Recognize_32_Implementation (StopRecognition_Implementation s Stopper) Sender PCMData
      WHISPER_SAMPLE_RATE Id Flag) =
      { s with TempRequest := ⟨Sender, Id, Flag, PCMData⟩,
               RequestsQueue := [⟨Sender, Id, Flag, PCMData⟩],
               RecognizedString := [], RecognizedData := [], bBreakWork := false,
               pendingTasks := s.pendingTasks + 1 } := by
    simp [Recognize_32_Implementation, StopRecognition_Implementation, ResampleTempBuffer,
      RecognizeFromQueue]
  refine ⟨_, workerTask (Recognize_32_Implementation (StopRecognition_Implementation s Stopper)
    Sender PCMData WHISPER_SAMPLE_RATE Id Flag), rfl, ?_, ?_, ?_, ?_, ?_, ?_, ?_, ?_, ?_, ?_, ?_, ?_⟩
  all_goals simp [hq, step, workerTask]

/-- C13. The code does not consult the stop flag in `EncoderBeginCallback`. Request 42 is
submitted and started and `StopRecognition` is called: the engine context and the parameters
exist and the stop flag is set, and `EncoderBeginCallback` still answers true (go on), while
`EncoderAbortCallback` answers true (abort) in the same state. -/
theorem encoder_begin_ignores_flag :
    ∃ s, run initialState [.submit (some 1) [1 / 2] 16000 42 7, .workerDequeue, .stop (some 1)]
        = some s ∧
      s.WhisperContext = true ∧ s.WhisperParameters = true ∧ ShouldBreak s = true ∧
      EncoderBeginCallback (some s) = true ∧ EncoderAbortCallback (some s) = true :=
  ⟨_, rfl, rfl, rfl, rfl, rfl, rfl⟩

/-- C14. The abort check reflects the stop flag: with the engine context and the parameters
present, `EncoderAbortCallback` answers true exactly when the stop flag is set; when the
context or the parameters are missing, or the user data pointer is null, it answers true. -/
theorem abort_check_reflects_flag (s : WhisperState) :
    (s.WhisperContext = true → s.WhisperParameters = true →
      (EncoderAbortCallback (some s) = true ↔ s.bBreakWork = true)) ∧
    (s.WhisperContext = false ∨ s.WhisperParameters = false →
      EncoderAbortCallback (some s) = true) ∧
    EncoderAbortCallback none = true := by
  refine ⟨?_, ?_, rfl⟩
  · intro hc hp
    simp [EncoderAbortCallback, ShouldBreak, hc, hp]
  · intro h
    rcases h with h | h <;> simp [EncoderAbortCallback, h]

/-- Instances of C14: the initial state (flag clear, answer false), the same state after a
stop (flag set, answer true), and a state without engine context (answer true). -/
theorem abort_check_reflects_flag_witness :
    (initialState.WhisperContext = true ∧ initialState.WhisperParameters = true) ∧
    EncoderAbortCallback (some initialState) = false ∧
    EncoderAbortCallback (some (StopRecognition_Implementation initialState none)) = true ∧
    EncoderAbortCallback (some { initialState with WhisperContext := false }) = true := by
  refine ⟨⟨rfl, rfl⟩, ?_, ?_, ?_⟩
  · have h := (abort_check_reflects_flag initialState).1 rfl rfl
    cases hb : EncoderAbortCallback (some initialState)
    · rfl
    · exact absurd (h.mp hb) (by decide)
  · exact ((abort_check_reflects_flag (StopRecognition_Implementation initialState none)).1
      rfl rfl).mpr rfl
  · exact (abort_check_reflects_flag { initialState with WhisperContext := false }).2.1
      (Or.inl rfl)

/-- C17 as stated fails: a float32 submission with zero samples at the target rate to the
idle initial state is put in the queue and starts the dispatcher, and its progress 100 event
delivers `onResult(42, 7, ..)`. -/
theorem empty_buffer_counterexample :
    (Recognize_32_Implementation initialState (some 1) [] 16000 42 7).RequestsQueue
      = [⟨some 1, 42, 7, []⟩] ∧
    (Recognize_32_Implementation initialState (some 1) [] 16000 42 7).pendingTasks = 1 ∧
    ∃ s, run initialState [.submit (some 1) [] 16000 42 7, .workerDequeue, .progress 100]
        = some s ∧
      s.delivered.map (fun d => (d.Sender, d.Id, d.Flag)) = [(some 1, 42, 7)] :=
  ⟨rfl, rfl, _, rfl, rfl⟩

/-- C17, amended. The submission path has no test for an empty buffer. At the target rate a
float32 submission with zero samples is admitted like any other: the request is put at the
end of the queue, one worker task is handed out when the queue was empty before and none
otherwise, and nothing is delivered. At another rate the submission call only hands out a
resampling task; when the resampling call fails the task changes nothing (the queue is
unchanged, no worker task is handed out, nothing is delivered), and when it succeeds the
request with the resampled buffer is put at the end of the queue. -/
theorem empty_buffer_admitted (Resample : Int → Int → List ℚ → Option (List ℚ))
    (s : WhisperState) (Sender : SenderPtr) (Id : Int) (Flag : Nat) :
    ((Recognize_32_Implementation s Sender [] WHISPER_SAMPLE_RATE Id Flag).RequestsQueue
        = s.RequestsQueue ++ [⟨Sender, Id, Flag, []⟩] ∧
      (Recognize_32_Implementation s Sender [] WHISPER_SAMPLE_RATE Id Flag).pendingTasks
        = (if s.RequestsQueue.isEmpty then s.pendingTasks + 1 else s.pendingTasks) ∧
      (Recognize_32_Implementation s Sender [] WHISPER_SAMPLE_RATE Id Flag).delivered
        = s.delivered) ∧
    (∀ (SampleRate : Int) (PCMData : List ℚ), SampleRate ≠ WHISPER_SAMPLE_RATE →
      (Recognize_32_Implementation s Sender PCMData SampleRate Id Flag) =
        { s with TempRequest := ⟨Sender, Id, Flag, PCMData⟩,
                 resampleTasks := s.resampleTasks ++ [SampleRate] } ∧
      (Resample SampleRate WHISPER_SAMPLE_RATE PCMData = none →
        resampleTask Resample (Recognize_32_Implementation s Sender PCMData SampleRate Id Flag)
            SampleRate
          = Recognize_32_Implementation s Sender PCMData SampleRate Id Flag) ∧
      (∀ out, Resample SampleRate WHISPER_SAMPLE_RATE PCMData = some out →
        (resampleTask Resample (Recognize_32_Implementation s Sender PCMData SampleRate Id Flag)
            SampleRate).RequestsQueue
          = s.RequestsQueue ++ [⟨Sender, Id, Flag, out⟩])) := by
  constructor
  · cases hq : s.RequestsQueue with
    | nil =>
      simp [Recognize_32_Implementation, ResampleTempBuffer, RecognizeFromQueue, hq]
    | cons r q =>
      simp [Recognize_32_Implementation, ResampleTempBuffer, RecognizeFromQueue, hq]
  · intro SampleRate PCMData hrate
    have h1 : (Recognize_32_Implementation s Sender PCMData SampleRate Id Flag) =
        { s with TempRequest := ⟨Sender, Id, Flag, PCMData⟩,
                 resampleTasks := s.resampleTasks ++ [SampleRate] } := by
      simp [Recognize_32_Implementation, ResampleTempBuffer, hrate]
    refine ⟨h1, ?_, ?_⟩
    · intro hnone
      rw [h1]
      simp [resampleTask, hnone]
    · intro out hout
      rw [h1]
      cases hq : s.RequestsQueue with
      | nil => simp [resampleTask, hout, ResampleTempBuffer, RecognizeFromQueue, hq]
      | cons r q => simp [resampleTask, hout, ResampleTempBuffer, RecognizeFromQueue, hq]

/-- An instance of C17 as amended: an empty buffer at 44100 Hz with a resampling call that
fails, submitted to the initial state. -/
theorem empty_buffer_admitted_witness :
    (44100 : Int) ≠ WHISPER_SAMPLE_RATE ∧
    (Recognize_32_Implementation initialState (some 1) [] WHISPER_SAMPLE_RATE 42 7).RequestsQueue
      = [⟨some 1, 42, 7, []⟩] ∧
    resampleTask (fun _ _ _ => none)
        (Recognize_32_Implementation initialState (some 1) [] 44100 42 7) 44100
      = Recognize_32_Implementation initialState (some 1) [] 44100 42 7 :=
  ⟨by decide,
   (empty_buffer_admitted (fun _ _ _ => none) initialState (some 1) 42 7).1.1,
   ((empty_buffer_admitted (fun _ _ _ => none) initialState (some 1) 42 7).2 44100 []
      (by decide)).2.1 rfl⟩

/-! ## The final transcript -/

theorem ToLower_eq_space {c : Char} (h : ToLower c = ' ') : c = ' ' := by
  by_cases hu : 65 ≤ c.toNat ∧ c.toNat ≤ 90
  · exfalso
    have h2 : (ToLower c).toNat = c.toNat + 32 := by
      unfold ToLower
      rw [if_pos hu]
      obtain ⟨h1, h2⟩ := hu
      generalize c.toNat = n at *
      interval_cases n <;> decide
    rw [h] at h2
    have : (' ' : Char).toNat = 32 := by decide
    omega
  · unfold ToLower at h
    rw [if_neg hu] at h
    exact h

theorem matchesAt_two_spaces (s : FString) :
    matchesAt [' ', ' '] s = true ↔ ∃ rest, s = ' ' :: ' ' :: rest := by
  constructor
  · intro h
    match s, h with
    | [], h => simp [matchesAt] at h
    | [_], h => simp [matchesAt] at h
    | a :: b :: rest, h =>
      simp only [matchesAt, eqIgnoreCase, List.length_cons, List.length_nil, List.take_succ_cons,
        List.take_zero, List.map_cons, List.map_nil, Bool.and_eq_true, decide_eq_true_eq,
        beq_iff_eq, List.cons.injEq, and_true] at h
      have ha : a = ' ' := ToLower_eq_space h.2.1
      have hb : b = ' ' := ToLower_eq_space h.2.2
      exact ⟨rest, by rw [ha, hb]⟩
  · rintro ⟨rest, rfl⟩
    simp [matchesAt, eqIgnoreCase]

theorem collapse_head (s : FString) :
    (replaceScan [' ', ' '] [' '] 0 s).head? = s.head? := by
  cases s with
  | nil => rfl
  | cons c cs =>
    simp only [replaceScan]
    split
    · rename_i h
      obtain ⟨rest, hrest⟩ := (matchesAt_two_spaces _).mp h
      simp only [List.cons.injEq] at hrest
      simp [hrest.1]
    · rfl

theorem collapse_no_double (n : Nat) :
    ∀ s : FString, s.length ≤ n → ¬ [' ', ' ', ' '] <:+: s →
      ¬ [' ', ' '] <:+: replaceScan [' ', ' '] [' '] 0 s := by
  induction n with
  | zero =>
    intro s hs _
    have : s = [] := List.length_eq_zero.mp (Nat.le_zero.mp hs)
    subst this
    simp [replaceScan]
  | succ n ih =>
    intro s hs h3
    cases s with
    | nil => simp [replaceScan]
    | cons c cs =>
      simp only [replaceScan]
      split
      · rename_i hm
        obtain ⟨rest, hrest⟩ := (matchesAt_two_spaces _).mp hm
        simp only [List.cons.injEq] at hrest
        obtain ⟨hc, hcs⟩ := hrest
        subst hc
        subst hcs
        simp only [List.length_cons, List.length_nil, Nat.reduceAdd, Nat.add_one_sub_one,
          replaceScan, List.singleton_append]
        have hrest3 : ¬ [' ', ' ', ' '] <:+: rest := fun h =>
          h3 (h.trans ((List.suffix_cons _ _).isInfix.trans (List.suffix_cons _ _).isInfix))
        have hlen : rest.length ≤ n := by
          simp only [List.length_cons] at hs
          omega
        have ihr := ih rest hlen hrest3
        have hhead : rest.head? ≠ some ' ' := by
          intro hh
          obtain ⟨r2, hr2⟩ := List.head?_eq_some_iff.mp hh
          apply h3
          rw [hr2]
          exact List.infix_refl _ |>.trans ⟨[], r2, by simp⟩
        intro hinf
        rcases List.infix_cons_iff.mp hinf with hp | hi
        · rw [List.cons_prefix_cons] at hp
          obtain ⟨_, hp2⟩ := hp
          have : (replaceScan [' ', ' '] [' '] 0 rest).head? = some ' ' := by
            obtain ⟨t, ht⟩ := hp2
            rw [← ht]
            rfl
          rw [collapse_head] at this
          exact hhead this
        · exact ihr hi
      · rename_i hm
        have hcs3 : ¬ [' ', ' ', ' '] <:+: cs := fun h => h3 (h.trans (List.suffix_cons _ _).isInfix)
        have hlen : cs.length ≤ n := by
          simp only [List.length_cons] at hs
          omega
        have ihr := ih cs hlen hcs3
        intro hinf
        rcases List.infix_cons_iff.mp hinf with hp | hi
        · rw [List.cons_prefix_cons] at hp
          obtain ⟨hc, hp2⟩ := hp
          have : (replaceScan [' ', ' '] [' '] 0 cs).head? = some ' ' := by
            obtain ⟨t, ht⟩ := hp2
            rw [← ht]
            rfl
          rw [collapse_head] at this
          obtain ⟨r2, hr2⟩ := List.head?_eq_some_iff.mp this
          apply hm
          rw [(matchesAt_two_spaces _)]
          exact ⟨r2, by rw [← hc, hr2]⟩
        · exact ihr hi

theorem trim_within (u : FString) : TrimStartAndEndInline u <:+: u :=
  (List.dropWhile_suffix IsWhitespace).isInfix.trans
    (List.rdropWhile_prefix IsWhitespace u).isInfix

/-- C15 as stated fails: with the accumulated text `a   b` (three spaces) the transcript
handed to `onResult` is `a  b`, which contains two consecutive spaces. -/
theorem transcript_counterexample :
    ∃ s, run initialState
        [.submit (some 1) [1 / 2] 16000 42 7, .workerDequeue,
         .newSegment [⟨"a   b".toList, []⟩], .progress 100] = some s ∧
      s.delivered.map (fun d => d.Text) = ["a  b".toList] ∧
      [' ', ' '] <:+: "a  b".toList :=
  ⟨_, rfl, rfl, ⟨['a'], ['b'], rfl⟩⟩

/-- C15, amended. With the engine context and the parameters present and a valid sender in
`ActiveRequest`, the progress 100 handler makes one `OnExternalRecognizeResult` call; its
transcript is `RecognizedString` after one left-to-right pass that replaces each pair of
spaces by one space, trimmed; it begins and ends with a character that is not whitespace;
and it contains no two consecutive spaces when `RecognizedString` contains no three
consecutive spaces. -/
theorem transcript_finalization (s : WhisperState)
    (hctx : s.WhisperContext = true) (hpar : s.WhisperParameters = true)
    (hvalid : IsValid s.ActiveRequest.Sender = true) :
    ∃ d : ResultCall,
      (ProgressCallback s 100).delivered = s.delivered ++ [d] ∧
      d.Text = TrimStartAndEndInline (ReplaceInline s.RecognizedString [' ', ' '] [' ']) ∧
      (∀ c ∈ d.Text.head?, IsWhitespace c = false) ∧
      (∀ c ∈ d.Text.getLast?, IsWhitespace c = false) ∧
      (¬ [' ', ' ', ' '] <:+: s.RecognizedString → ¬ [' ', ' '] <:+: d.Text) := by
  refine ⟨⟨s.ActiveRequest.Sender, s.ActiveRequest.Id, s.ActiveRequest.Flag,
    TrimStartAndEndInline (ReplaceInline s.RecognizedString [' ', ' '] [' ']),
    s.RecognizedData⟩, ?_, rfl, trim_head_not_ws _, trim_last_not_ws _, ?_⟩
  · have hcl : Clamp 100 0 100 = 100 := by decide
    simp only [ProgressCallback, progressTask, RecognizeFromQueue, hcl, hctx, hpar, hvalid,
      Bool.not_true, Bool.or_self, Bool.false_eq_true, if_false, if_true]
    split <;> rfl
  · intro h3 h2
    have hin : [' ', ' '] <:+: ReplaceInline s.RecognizedString [' ', ' '] [' '] :=
      h2.trans (trim_within _)
    exact collapse_no_double s.RecognizedString.length s.RecognizedString (Nat.le_refl _) h3
      (by simpa [ReplaceInline] using hin)

/-- An instance of C15 as amended: the accumulated text ` Hello,  world. ` is handed over as
`Hello, world.`. -/
theorem transcript_finalization_witness :
    ∃ (s : WhisperState) (d : ResultCall),
      run initialState [.submit (some 1) [1 / 2] 16000 42 7, .workerDequeue,
        .newSegment [⟨" Hello,  world. ".toList, []⟩]] = some s ∧
      (ProgressCallback s 100).delivered = s.delivered ++ [d] ∧
      d.Text = "Hello, world.".toList ∧ ¬ [' ', ' '] <:+: d.Text := by
  obtain ⟨d, h1, h2, _, _, h5⟩ := transcript_finalization
    (NewTextSegmentCallback
      (workerTask (Recognize_32_Implementation initialState (some 1) [1 / 2] 16000 42 7))
      [⟨" Hello,  world. ".toList, []⟩]) rfl rfl rfl
  refine ⟨_, d, rfl, h1, ?_, h5 (by decide)⟩
  rw [h2]
  decide

/-! ## 16-bit input and time marks -/

theorem pcm16_range (PCMData : List Nat) (i : Nat) :
    -32768 ≤ pcm16 PCMData i ∧ pcm16 PCMData i ≤ 32767 := by
  unfold pcm16
  simp only
  split <;> omega

theorem mem_convertPcm16 {PCMData : List Nat} {x : ℚ} (hx : x ∈ convertPcm16 PCMData) :
    ∃ i, i < PCMData.length / 2 ∧ x = (pcm16 PCMData i : ℚ) / 32768 := by
  simp only [convertPcm16, List.mem_map, List.mem_range] at hx
  obtain ⟨i, hi, rfl⟩ := hx
  exact ⟨i, hi, rfl⟩

/-- C16. 16-bit normalization: for a non-empty byte array of length `L` passed to
`Recognize_16`, the buffer stored in `TempRequest` (and queued, at the target rate) has
`L / 2` samples, sample `i` is the `i`-th signed 16-bit value divided by 32768, that value
lies between -32768 and 32767, and every sample lies in `[-1, 1]`. -/
theorem pcm16_normalization (s : WhisperState) (Sender : SenderPtr) (PCMData : List Nat)
    (SampleRate : Int) (Id : Int) (Flag : Nat) (hne : PCMData ≠ []) :
    (Recognize_16_Implementation s Sender PCMData SampleRate Id Flag).TempRequest
      = ⟨Sender, Id, Flag, convertPcm16 PCMData⟩ ∧
    (SampleRate = WHISPER_SAMPLE_RATE →
      (Recognize_16_Implementation s Sender PCMData SampleRate Id Flag).RequestsQueue
        = s.RequestsQueue ++ [⟨Sender, Id, Flag, convertPcm16 PCMData⟩]) ∧
    (convertPcm16 PCMData).length = PCMData.length / 2 ∧
    (∀ (i : Nat) (hi : i < (convertPcm16 PCMData).length),
      (convertPcm16 PCMData)[i] = (pcm16 PCMData i : ℚ) / 32768 ∧
      -32768 ≤ pcm16 PCMData i ∧ pcm16 PCMData i ≤ 32767) ∧
    (∀ x ∈ convertPcm16 PCMData, -1 ≤ x ∧ x ≤ 1) := by
  have _hL : 0 < PCMData.length := List.length_pos.mpr hne
  refine ⟨?_, ?_, ?_, ?_, ?_⟩
  · unfold Recognize_16_Implementation ResampleTempBuffer RecognizeFromQueue
    split
    · rfl
    · simp only
      split
      · split <;> rfl
      · rfl
  · intro hrate
    cases hq : s.RequestsQueue with
    | nil => simp [Recognize_16_Implementation, ResampleTempBuffer, RecognizeFromQueue, hq, hrate]
    | cons r q =>
      simp [Recognize_16_Implementation, ResampleTempBuffer, RecognizeFromQueue, hq, hrate]
  · simp [convertPcm16]
  · intro i hi
    refine ⟨?_, pcm16_range PCMData i⟩
    simp [convertPcm16]
  · intro x hx
    obtain ⟨i, _, rfl⟩ := mem_convertPcm16 hx
    obtain ⟨h1, h2⟩ := pcm16_range PCMData i
    have h1q : (-32768 : ℚ) ≤ (pcm16 PCMData i : ℚ) := by exact_mod_cast h1
    have h2q : (pcm16 PCMData i : ℚ) ≤ 32767 := by exact_mod_cast h2
    constructor
    · rw [le_div_iff₀ (by norm_num)]
      linarith
    · rw [div_le_iff₀ (by norm_num)]
      linarith

/-- An instance of C16: the six bytes `00 80 FF 7F 00 40` at the target rate give the
samples -1, 32767/32768 and 1/2. -/
theorem pcm16_normalization_witness :
    ([0, 128, 255, 127, 0, 64] : List Nat) ≠ [] ∧
    (convertPcm16 [0, 128, 255, 127, 0, 64]).length = 3 ∧
    convertPcm16 [0, 128, 255, 127, 0, 64] = [-1, 32767 / 32768, 1 / 2] ∧
    (∀ x ∈ convertPcm16 [0, 128, 255, 127, 0, 64], -1 ≤ x ∧ x ≤ 1) ∧
    (Recognize_16_Implementation initialState (some 1) [0, 128, 255, 127, 0, 64] 16000 42 7).RequestsQueue
      = [⟨some 1, 42, 7, convertPcm16 [0, 128, 255, 127, 0, 64]⟩] := by
  have h := pcm16_normalization initialState (some 1) [0, 128, 255, 127, 0, 64] 16000 42 7
    (by decide)
  refine ⟨by decide, h.2.2.1, ?_, h.2.2.2.2, h.2.1 rfl⟩
  have e0 : pcm16 [0, 128, 255, 127, 0, 64] 0 = -32768 := by decide
  have e1 : pcm16 [0, 128, 255, 127, 0, 64] 1 = 32767 := by decide
  have e2 : pcm16 [0, 128, 255, 127, 0, 64] 2 = 16384 := by decide
  simp only [convertPcm16, List.length_cons, List.length_nil, List.range, List.range.loop,
    List.map_cons, List.map_nil, e0, e1, e2]
  norm_num

end Whisper
